import Mathlib

/-!
Verification of the streaming core of this repository: the frame protocol
(`getStreamString` / `createChunkDecoder` in src/unnamed/part_000), the OpenAI
delta extractor (`chunkToText` in src/unnamed/part_001), the callback and
function-call transformer pipeline (`createCallbacksTransformer` in
src/packages/core/streams/ai-stream.ts, `createFunctionCallTransformer` and
`OpenAIStream` in src/unnamed/part_001), and the non-2xx error path of
`AIStream`.

Strings of the JavaScript source are modelled as `List Char`.  JSON values
(the result of `JSON.parse` / argument of `JSON.stringify`) are modelled by
the mutual inductive `JSONValue` / `JArr` / `JObj` below, with JSON numbers
restricted to integers (no claim involves fractional numbers).  `jsonPrint`
models `JSON.stringify` (including its string-escaping rules) and `jsonParse`
models `JSON.parse` (strict about unescaped control characters, tolerant of
inter-token whitespace, integer numerals only).
-/

set_option maxRecDepth 16384

mutual

/-- Model of a JavaScript JSON value (`JSONValue` in src/shared/types).
Numbers are modelled as integers. -/
inductive JSONValue where
  | jnull : JSONValue
  | jbool (b : Bool) : JSONValue
  | jnum (n : Int) : JSONValue
  | jstr (s : List Char) : JSONValue
  | jarr (a : JArr) : JSONValue
  | jobj (o : JObj) : JSONValue
deriving DecidableEq

inductive JArr where
  | anil : JArr
  | acons (v : JSONValue) (rest : JArr) : JArr
deriving DecidableEq

inductive JObj where
  | onil : JObj
  | ocons (k : List Char) (v : JSONValue) (rest : JObj) : JObj
deriving DecidableEq

end

open JSONValue JArr JObj

/-- Decimal digits of a natural number, most significant first.  Fuel-based so
that the kernel can evaluate it (`fuel ≥ n` always suffices). -/
def printNatAux : Nat → Nat → List Char
  | 0, n => [Nat.digitChar (n % 10)]
  | fuel + 1, n =>
    if n < 10 then [Nat.digitChar n]
    else printNatAux fuel (n / 10) ++ [Nat.digitChar (n % 10)]

def printNat (n : Nat) : List Char := printNatAux n n

/-- Decimal notation of an integer, as emitted by `JSON.stringify`. -/
def printInt (n : Int) : List Char :=
  if n < 0 then '-' :: printNat n.natAbs else printNat n.toNat

/-- String-literal escaping performed by `JSON.stringify` on one character:
quote and backslash get a backslash escape, the control characters with a
short escape use it, all other control characters are emitted as `\u00XX`,
everything else is emitted verbatim. -/
def jsEscape (c : Char) : List Char :=
  if c = '"' then ['\\', '"']
  else if c = '\\' then ['\\', '\\']
  else if c = '\n' then ['\\', 'n']
  else if c = '\r' then ['\\', 'r']
  else if c = '\t' then ['\\', 't']
  else if c.toNat = 8 then ['\\', 'b']
  else if c.toNat = 12 then ['\\', 'f']
  else if c.toNat < 32 then
    ['\\', 'u', '0', '0', Nat.digitChar (c.toNat / 16), Nat.digitChar (c.toNat % 16)]
  else [c]

/-- Body of a JSON string literal for `s` (without the surrounding quotes). -/
def printStrBody : List Char → List Char
  | [] => []
  | c :: rest => jsEscape c ++ printStrBody rest

mutual

/-- Model of `JSON.stringify` (which emits no whitespace between tokens). -/
def jsonPrint : JSONValue → List Char
  | jnull => ['n', 'u', 'l', 'l']
  | jbool true => ['t', 'r', 'u', 'e']
  | jbool false => ['f', 'a', 'l', 's', 'e']
  | jnum n => printInt n
  | jstr s => '"' :: printStrBody s ++ ['"']
  | jarr a => '[' :: printArr a
  | jobj o => '{' :: printObj o

def printArr : JArr → List Char
  | anil => [']']
  | acons v rest => jsonPrint v ++ printArrTail rest

def printArrTail : JArr → List Char
  | anil => [']']
  | acons v rest => ',' :: jsonPrint v ++ printArrTail rest

def printObj : JObj → List Char
  | onil => ['}']
  | ocons k v rest =>
      '"' :: printStrBody k ++ '"' :: ':' :: jsonPrint v ++ printObjTail rest

def printObjTail : JObj → List Char
  | onil => ['}']
  | ocons k v rest =>
      ',' :: '"' :: printStrBody k ++ '"' :: ':' :: jsonPrint v ++ printObjTail rest

end

/-- JSON inter-token whitespace. -/
def isJWS (c : Char) : Bool := c = ' ' || c = '\t' || c = '\n' || c = '\r'

def skipWS : List Char → List Char
  | [] => []
  | c :: rest => if isJWS c then skipWS rest else c :: rest

/-- Value of a hexadecimal digit character. -/
def hexVal (c : Char) : Option Nat :=
  if c.isDigit then some (c.toNat - 48)
  else if 'a' ≤ c && c ≤ 'f' then some (c.toNat - 87)
  else if 'A' ≤ c && c ≤ 'F' then some (c.toNat - 55)
  else none

/-- Parses the body of a JSON string literal up to (and consuming) the closing
quote, rejecting unescaped control characters as `JSON.parse` does.  Returns
the decoded characters and the remaining input. -/
def escTable (e : Char) : Option Char :=
  if e = '"' then some '"'
  else if e = '\\' then some '\\'
  else if e = '/' then some '/'
  else if e = 'n' then some '\n'
  else if e = 'r' then some '\r'
  else if e = 't' then some '\t'
  else if e = 'b' then some (Char.ofNat 8)
  else if e = 'f' then some (Char.ofNat 12)
  else none

/-- Parses the body of a JSON string literal up to (and consuming) the closing
quote, rejecting unescaped control characters as `JSON.parse` does.  Returns
the decoded characters and the remaining input. -/
def parseStrBody : List Char → Option (List Char × List Char)
  | [] => none
  | c :: rest =>
    if c = '"' then some ([], rest)
    else if c = '\\' then
      match rest with
      | 'u' :: h1 :: h2 :: h3 :: h4 :: rest2 =>
        match hexVal h1, hexVal h2, hexVal h3, hexVal h4 with
        | some v1, some v2, some v3, some v4 =>
          match parseStrBody rest2 with
          | some (s, rest3) =>
              some (Char.ofNat (v1 * 4096 + v2 * 256 + v3 * 16 + v4) :: s, rest3)
          | none => none
        | _, _, _, _ => none
      | e :: rest2 =>
        match escTable e with
        | some d =>
          match parseStrBody rest2 with
          | some (s, rest3) => some (d :: s, rest3)
          | none => none
        | none => none
      | [] => none
    else if c.toNat < 32 then none
    else
      match parseStrBody rest with
      | some (s, rest2) => some (c :: s, rest2)
      | none => none

/-- Consumes a maximal run of decimal digits, folding them onto `acc`. -/
def parseDigitsAux (acc : Nat) : List Char → Nat × List Char
  | [] => (acc, [])
  | c :: rest =>
    if c.isDigit then parseDigitsAux (acc * 10 + (c.toNat - 48)) rest
    else (acc, c :: rest)

mutual

/-- Model of `JSON.parse` (value grammar).  Fuel-based so that the kernel can
evaluate it; every recursive call decrements the fuel. -/
def parseVal : Nat → List Char → Option (JSONValue × List Char)
  | 0, _ => none
  | fuel + 1, cs =>
    match skipWS cs with
    | 'n' :: 'u' :: 'l' :: 'l' :: rest => some (jnull, rest)
    | 't' :: 'r' :: 'u' :: 'e' :: rest => some (jbool true, rest)
    | 'f' :: 'a' :: 'l' :: 's' :: 'e' :: rest => some (jbool false, rest)
    | '"' :: rest =>
      match parseStrBody rest with
      | some (s, rest2) => some (jstr s, rest2)
      | none => none
    | '[' :: rest => parseArrBody fuel rest
    | '{' :: rest => parseObjBody fuel rest
    | '-' :: c :: rest =>
      if c.isDigit then
        match parseDigitsAux (c.toNat - 48) rest with
        | (n, rest2) => some (jnum (-(n : Int)), rest2)
      else none
    | c :: rest =>
      if c.isDigit then
        match parseDigitsAux (c.toNat - 48) rest with
        | (n, rest2) => some (jnum (n : Int), rest2)
      else none
    | [] => none

def parseArrBody : Nat → List Char → Option (JSONValue × List Char)
  | 0, _ => none
  | fuel + 1, cs =>
    match skipWS cs with
    | ']' :: rest => some (jarr anil, rest)
    | _ =>
      match parseVal fuel cs with
      | some (v, rest) =>
        match parseArrTailP fuel rest with
        | some (a, rest2) => some (jarr (acons v a), rest2)
        | none => none
      | none => none

def parseArrTailP : Nat → List Char → Option (JArr × List Char)
  | 0, _ => none
  | fuel + 1, cs =>
    match skipWS cs with
    | ']' :: rest => some (anil, rest)
    | ',' :: rest =>
      match parseVal fuel rest with
      | some (v, rest2) =>
        match parseArrTailP fuel rest2 with
        | some (a, rest3) => some (acons v a, rest3)
        | none => none
      | none => none
    | _ => none

def parseObjBody : Nat → List Char → Option (JSONValue × List Char)
  | 0, _ => none
  | fuel + 1, cs =>
    match skipWS cs with
    | '}' :: rest => some (jobj onil, rest)
    | '"' :: rest =>
      match parseStrBody rest with
      | some (k, rest2) =>
        match skipWS rest2 with
        | ':' :: rest3 =>
          match parseVal fuel rest3 with
          | some (v, rest4) =>
            match parseObjTailP fuel rest4 with
            | some (o, rest5) => some (jobj (ocons k v o), rest5)
            | none => none
          | none => none
        | _ => none
      | none => none
    | _ => none

def parseObjTailP : Nat → List Char → Option (JObj × List Char)
  | 0, _ => none
  | fuel + 1, cs =>
    match skipWS cs with
    | '}' :: rest => some (onil, rest)
    | ',' :: rest =>
      match skipWS rest with
      | '"' :: rest2 =>
        match parseStrBody rest2 with
        | some (k, rest3) =>
          match skipWS rest3 with
          | ':' :: rest4 =>
            match parseVal fuel rest4 with
            | some (v, rest5) =>
              match parseObjTailP fuel rest5 with
              | some (o, rest6) => some (ocons k v o, rest6)
              | none => none
            | none => none
          | _ => none
        | none => none
      | _ => none
    | _ => none

end

/-- Model of `JSON.parse`: parse one value and require only trailing
whitespace after it. -/
def jsonParse (cs : List Char) : Option JSONValue :=
  match parseVal (2 * cs.length + 2) cs with
  | some (v, rest) => if skipWS rest = [] then some v else none
  | none => none

/-- Convenience: the characters of a string literal. -/
def strL (s : String) : List Char := s.toList

example : jsonParse (strL "\x7b\"a\": [1, -25, \"x\\n\"]\x7d") =
    some (jobj (ocons (strL "a")
      (jarr (acons (jnum 1) (acons (jnum (-25)) (acons (jstr (strL "x\n")) anil))))
      onil)) := by decide

example : jsonParse (strL "\x7b\"a\":1") = none := by decide

example : jsonPrint (jobj (ocons (strL "a") (jstr (strL "b\"\n")) onil)) =
    strL "\x7b\"a\":\"b\\\"\\n\"\x7d" := by decide

/-! Correctness of the JSON parser on printer output (completeness), needed
for the frame-protocol round-trip claim. -/

mutual

def sizeV : JSONValue → Nat
  | jnull => 1
  | jbool _ => 1
  | jnum _ => 1
  | jstr _ => 1
  | jarr a => sizeA a + 1
  | jobj o => sizeO o + 1

def sizeA : JArr → Nat
  | anil => 1
  | acons v rest => sizeV v + sizeA rest + 1

def sizeO : JObj → Nat
  | onil => 1
  | ocons _ v rest => sizeV v + sizeO rest + 1

end

theorem sizeV_pos (v : JSONValue) : 1 ≤ sizeV v := by
  cases v <;> simp [sizeV]

theorem sizeA_pos (a : JArr) : 1 ≤ sizeA a := by
  cases a <;> simp [sizeA]

theorem sizeO_pos (o : JObj) : 1 ≤ sizeO o := by
  cases o <;> simp [sizeO]

/-- After a complete value, the parser only ever looks at the next character
to decide whether the numeral continues: everything is fine as long as the
remaining input does not begin with a digit. -/
def restOK : List Char → Bool
  | [] => true
  | c :: _ => !c.isDigit

theorem skipWS_cons_notWS {c : Char} (h : isJWS c = false) (cs : List Char) :
    skipWS (c :: cs) = c :: cs := by
  simp [skipWS, h]

theorem digitChar_isDigit {m : Nat} (h : m < 10) :
    (Nat.digitChar m).isDigit = true := by
  interval_cases m <;> decide

theorem digitChar_val {m : Nat} (h : m < 10) :
    (Nat.digitChar m).toNat - 48 = m := by
  interval_cases m <;> decide

theorem digitChar_notWS {m : Nat} (h : m < 10) :
    isJWS (Nat.digitChar m) = false := by
  interval_cases m <;> decide

theorem hexVal_digitChar {m : Nat} (h : m < 16) :
    hexVal (Nat.digitChar m) = some m := by
  interval_cases m <;> decide

theorem printNatAux_shape (fuel n : Nat) :
    ∃ m ds, printNatAux fuel n = Nat.digitChar m :: ds ∧ m < 10 := by
  induction fuel generalizing n with
  | zero => exact ⟨n % 10, [], rfl, Nat.mod_lt _ (by omega)⟩
  | succ fuel ih =>
    by_cases h : n < 10
    · exact ⟨n, [], by simp [printNatAux, h], h⟩
    · obtain ⟨m, ds, hds, hm⟩ := ih (n / 10)
      exact ⟨m, ds ++ [Nat.digitChar (n % 10)], by simp [printNatAux, h, hds], hm⟩

theorem printNatAux_digits (fuel n : Nat) :
    ∀ c ∈ printNatAux fuel n, c.isDigit = true := by
  induction fuel generalizing n with
  | zero =>
    intro c hc
    simp [printNatAux] at hc
    subst hc
    exact digitChar_isDigit (Nat.mod_lt _ (by omega))
  | succ fuel ih =>
    intro c hc
    by_cases h : n < 10
    · simp [printNatAux, h] at hc
      subst hc
      exact digitChar_isDigit h
    · simp [printNatAux, h] at hc
      rcases hc with hc | hc
      · exact ih _ c hc
      · subst hc
        exact digitChar_isDigit (Nat.mod_lt _ (by omega))

/-- The parser's digit-accumulation step. -/
def digStep (a : Nat) (c : Char) : Nat := a * 10 + (c.toNat - 48)

theorem parseDigitsAux_append (ds : List Char) :
    ∀ acc rest, (∀ c ∈ ds, c.isDigit = true) → restOK rest = true →
    parseDigitsAux acc (ds ++ rest) = (List.foldl digStep acc ds, rest) := by
  induction ds with
  | nil =>
    intro acc rest _ hrest
    cases rest with
    | nil => simp [parseDigitsAux]
    | cons c t =>
      simp [restOK] at hrest
      simp [parseDigitsAux, hrest]
  | cons c ds ih =>
    intro acc rest hds hrest
    have hc : c.isDigit = true := hds c (by simp)
    simp only [List.cons_append, parseDigitsAux, hc, if_true, List.append_eq]
    rw [ih _ rest (fun d hd => hds d (by simp [hd])) hrest]
    rfl

theorem foldl_printNatAux (fuel : Nat) :
    ∀ n acc, n ≤ fuel →
    List.foldl digStep acc (printNatAux fuel n) =
      acc * 10 ^ (printNatAux fuel n).length + n := by
  induction fuel with
  | zero =>
    intro n acc hn
    have hn0 : n = 0 := by omega
    subst hn0
    simp [printNatAux, digStep]
    decide
  | succ fuel ih =>
    intro n acc hn
    by_cases h : n < 10
    · simp [printNatAux, h, digStep, digitChar_val h]
    · have hrec : n / 10 ≤ fuel := by omega
      simp only [printNatAux, h, if_false, List.foldl_append, List.length_append]
      rw [ih _ acc hrec]
      simp only [List.foldl_cons, List.foldl_nil, digStep,
        digitChar_val (Nat.mod_lt n (by omega) : n % 10 < 10),
        List.length_singleton]
      rw [pow_succ]
      have hdm : 10 * (n / 10) + n % 10 = n := Nat.div_add_mod n 10
      ring_nf
      omega

theorem parseDigits_printNat (n : Nat) (rest : List Char) (hrest : restOK rest = true) :
    ∃ d ds, printNat n = d :: ds ∧ d.isDigit = true ∧
      parseDigitsAux (d.toNat - 48) (ds ++ rest) = (n, rest) := by
  obtain ⟨m, ds, hshape, hm⟩ := printNatAux_shape n n
  refine ⟨Nat.digitChar m, ds, by simpa [printNat] using hshape, digitChar_isDigit hm, ?_⟩
  have hds : ∀ c ∈ ds, c.isDigit = true := by
    intro c hc
    exact printNatAux_digits n n c (by simp [hshape, hc])
  rw [parseDigitsAux_append ds _ rest hds hrest]
  have hfold : List.foldl digStep ((Nat.digitChar m).toNat - 48) ds = n := by
    have h1 : List.foldl digStep 0 (printNatAux n n) =
        0 * 10 ^ (printNatAux n n).length + n := foldl_printNatAux n n 0 le_rfl
    have h2 : List.foldl digStep 0 (printNatAux n n) =
        List.foldl digStep (digStep 0 (Nat.digitChar m)) ds := by
      rw [hshape]; rfl
    have h3 : digStep 0 (Nat.digitChar m) = (Nat.digitChar m).toNat - 48 := by
      simp [digStep]
    rw [h3] at h2
    rw [h2] at h1
    simpa using h1
  rw [hfold]

theorem parseStrBody_printStrBody (s : List Char) :
    ∀ rest, parseStrBody (printStrBody s ++ '"' :: rest) = some (s, rest) := by
  induction s with
  | nil =>
    intro rest
    show parseStrBody ('"' :: rest) = some ([], rest)
    unfold parseStrBody
    simp
  | cons c s ih =>
    intro rest
    simp only [printStrBody, List.append_assoc]
    by_cases h1 : c = '"'
    · subst h1; simp [jsEscape, parseStrBody, escTable, ih]
    by_cases h2 : c = '\\'
    · subst h2; simp [jsEscape, parseStrBody, escTable, ih]
    by_cases h3 : c = '\n'
    · subst h3; simp [jsEscape, parseStrBody, escTable, ih]
    by_cases h4 : c = '\r'
    · subst h4; simp [jsEscape, parseStrBody, escTable, ih]
    by_cases h5 : c = '\t'
    · subst h5; simp [jsEscape, parseStrBody, escTable, ih]
    by_cases h6 : c.toNat = 8
    · have hc : c = Char.ofNat 8 := by rw [← h6, Char.ofNat_toNat]
      subst hc
      simp [jsEscape, parseStrBody, escTable, ih]
    by_cases h7 : c.toNat = 12
    · have hc : c = Char.ofNat 12 := by rw [← h7, Char.ofNat_toNat]
      subst hc
      simp [jsEscape, parseStrBody, escTable, ih]
    by_cases h8 : c.toNat < 32
    · have hhi : c.toNat / 16 < 16 := by omega
      have hlo : c.toNat % 16 < 16 := Nat.mod_lt _ (by omega)
      have hesc : jsEscape c = ['\\', 'u', '0', '0', Nat.digitChar (c.toNat / 16),
          Nat.digitChar (c.toNat % 16)] := by
        simp [jsEscape, h1, h2, h3, h4, h5, h6, h7, h8]
      rw [hesc]
      simp only [List.cons_append, List.nil_append]
      simp [parseStrBody, hexVal_digitChar hhi, hexVal_digitChar hlo, ih rest,
        show hexVal '0' = some 0 from rfl]
      have hval : c.toNat / 16 * 16 + c.toNat % 16 = c.toNat := by omega
      rw [hval, Char.ofNat_toNat]
    · -- plain character (c ≥ 32 and not a quote or backslash): emitted verbatim
      have hesc : jsEscape c = [c] := by
        simp [jsEscape, h1, h2, h3, h4, h5, h6, h7, h8]
      rw [hesc]
      simp only [List.singleton_append]
      unfold parseStrBody
      simp [h1, h2, h8, ih rest]


theorem isDigit_notWS {c : Char} (h : c.isDigit = true) : isJWS c = false := by
  by_contra hws
  have hws' : isJWS c = true := by
    cases hb : isJWS c
    · exact absurd hb hws
    · rfl
  simp only [isJWS, Bool.or_eq_true, decide_eq_true_eq] at hws'
  rcases hws' with ((h1 | h1) | h1) | h1 <;> subst h1 <;> simp at h

theorem digit_notDigit_char {c d : Char} (h : c.isDigit = true)
    (hd : d.isDigit = false) : c ≠ d := by
  intro he
  subst he
  rw [h] at hd
  cases hd

theorem digitChar_ne_rbracket {m : Nat} (h : m < 10) : Nat.digitChar m ≠ ']' := by
  interval_cases m <;> decide

theorem jsonPrint_head (v : JSONValue) :
    ∃ c cs, jsonPrint v = c :: cs ∧ isJWS c = false ∧ c ≠ ']' := by
  cases v with
  | jnull => exact ⟨'n', _, rfl, by decide, by decide⟩
  | jbool b =>
    cases b
    · exact ⟨'f', _, rfl, by decide, by decide⟩
    · exact ⟨'t', _, rfl, by decide, by decide⟩
  | jnum n =>
    show ∃ c cs, printInt n = c :: cs ∧ _
    by_cases hn : n < 0
    · exact ⟨'-', printNat n.natAbs, by simp [printInt, hn], by decide, by decide⟩
    · obtain ⟨m, ds, hshape, hm⟩ := printNatAux_shape n.toNat n.toNat
      refine ⟨Nat.digitChar m, ds, ?_, digitChar_notWS hm, digitChar_ne_rbracket hm⟩
      simp [printInt, hn, printNat, hshape]
  | jstr s => exact ⟨'"', _, rfl, by decide, by decide⟩
  | jarr a => exact ⟨'[', _, rfl, by decide, by decide⟩
  | jobj o => exact ⟨'{', _, rfl, by decide, by decide⟩

theorem skipWS_jsonPrint (v : JSONValue) (rest : List Char) :
    skipWS (jsonPrint v ++ rest) = jsonPrint v ++ rest := by
  obtain ⟨c, cs, hv, hws, _⟩ := jsonPrint_head v
  rw [hv, List.cons_append, skipWS_cons_notWS hws]

theorem restOK_printArrTail (a : JArr) (rest : List Char) :
    restOK (printArrTail a ++ rest) = true := by
  cases a <;> simp [printArrTail, restOK]

theorem restOK_printObjTail (o : JObj) (rest : List Char) :
    restOK (printObjTail o ++ rest) = true := by
  cases o <;> simp [printObjTail, restOK]

theorem parseVal_digitHead {d : Char} (hd : d.isDigit = true) (fuel : Nat)
    (t : List Char) :
    parseVal (fuel + 1) (d :: t) =
      some (jnum ((parseDigitsAux (d.toNat - 48) t).1 : Int),
        (parseDigitsAux (d.toNat - 48) t).2) := by
  have hws : isJWS d = false := isDigit_notWS hd
  unfold parseVal
  rw [skipWS_cons_notWS hws]
  split
  · rename_i heq; simp at heq; obtain ⟨rfl, -⟩ := heq; simp at hd
  · rename_i heq; simp at heq; obtain ⟨rfl, -⟩ := heq; simp at hd
  · rename_i heq; simp at heq; obtain ⟨rfl, -⟩ := heq; simp at hd
  · rename_i heq; simp at heq; obtain ⟨rfl, -⟩ := heq; simp at hd
  · rename_i heq; simp at heq; obtain ⟨rfl, -⟩ := heq; simp at hd
  · rename_i heq; simp at heq; obtain ⟨rfl, -⟩ := heq; simp at hd
  · rename_i heq; simp at heq; obtain ⟨rfl, -⟩ := heq; simp at hd
  · rename_i heq; simp at heq; obtain ⟨rfl, rfl⟩ := heq; simp [hd]
  · rename_i heq; simp at heq

theorem parseVal_negHead {d : Char} (hd : d.isDigit = true) (fuel : Nat)
    (t : List Char) :
    parseVal (fuel + 1) ('-' :: d :: t) =
      some (jnum (-((parseDigitsAux (d.toNat - 48) t).1 : Int)),
        (parseDigitsAux (d.toNat - 48) t).2) := by
  unfold parseVal
  rw [skipWS_cons_notWS (by decide)]
  split
  · rename_i heq; simp at heq
  · rename_i heq; simp at heq
  · rename_i heq; simp at heq
  · rename_i heq; simp at heq
  · rename_i heq; simp at heq
  · rename_i heq; simp at heq
  · rename_i heq; simp at heq; obtain ⟨rfl, rfl⟩ := heq; simp [hd]
  · rename_i hnot heq
    simp at heq
    obtain ⟨h1, h2⟩ := heq
    exact absurd (hnot d t h1.symm h2.symm) id
  · rename_i heq; simp at heq

theorem parseArrBody_default {fuel : Nat} {cs : List Char}
    (h : ∀ rest', skipWS cs ≠ ']' :: rest') :
    parseArrBody (fuel + 1) cs =
      match parseVal fuel cs with
      | some (v, rest) =>
        match parseArrTailP fuel rest with
        | some (a, rest2) => some (jarr (acons v a), rest2)
        | none => none
      | none => none := by
  unfold parseArrBody
  split
  · rename_i heq; exact absurd heq (h _)
  · rfl

theorem parsePrintBundle : ∀ fuel,
    (∀ v rest, sizeV v ≤ fuel → restOK rest = true →
      parseVal fuel (jsonPrint v ++ rest) = some (v, rest)) ∧
    (∀ a rest, sizeA a ≤ fuel → restOK rest = true →
      parseArrBody fuel (printArr a ++ rest) = some (jarr a, rest)) ∧
    (∀ a rest, sizeA a ≤ fuel → restOK rest = true →
      parseArrTailP fuel (printArrTail a ++ rest) = some (a, rest)) ∧
    (∀ o rest, sizeO o ≤ fuel → restOK rest = true →
      parseObjBody fuel (printObj o ++ rest) = some (jobj o, rest)) ∧
    (∀ o rest, sizeO o ≤ fuel → restOK rest = true →
      parseObjTailP fuel (printObjTail o ++ rest) = some (o, rest)) := by
  intro fuel
  induction fuel with
  | zero =>
    refine ⟨fun v _ hs _ => ?_, fun a _ hs _ => ?_, fun a _ hs _ => ?_,
      fun o _ hs _ => ?_, fun o _ hs _ => ?_⟩
    · have := sizeV_pos v; omega
    · have := sizeA_pos a; omega
    · have := sizeA_pos a; omega
    · have := sizeO_pos o; omega
    · have := sizeO_pos o; omega
  | succ fuel ih =>
    obtain ⟨ihV, ihA, ihAT, ihO, ihOT⟩ := ih
    refine ⟨?_, ?_, ?_, ?_, ?_⟩
    · -- parseVal on a printed value
      intro v rest hsize hrest
      cases v with
      | jnull =>
        show parseVal (fuel + 1) (['n', 'u', 'l', 'l'] ++ rest) = some (jnull, rest)
        unfold parseVal
        simp only [List.cons_append, List.nil_append]
        rw [skipWS_cons_notWS (by decide)]
        rfl
      | jbool b =>
        cases b
        · show parseVal (fuel + 1) (['f', 'a', 'l', 's', 'e'] ++ rest) =
            some (jbool false, rest)
          unfold parseVal
          simp only [List.cons_append, List.nil_append]
          rw [skipWS_cons_notWS (by decide)]
          rfl
        · show parseVal (fuel + 1) (['t', 'r', 'u', 'e'] ++ rest) =
            some (jbool true, rest)
          unfold parseVal
          simp only [List.cons_append, List.nil_append]
          rw [skipWS_cons_notWS (by decide)]
          rfl
      | jnum n =>
        show parseVal (fuel + 1) (printInt n ++ rest) = some (jnum n, rest)
        by_cases hn : n < 0
        · obtain ⟨d, ds, hshape, hd, hparse⟩ := parseDigits_printNat n.natAbs rest hrest
          rw [show printInt n = '-' :: printNat n.natAbs by simp [printInt, hn], hshape]
          simp only [List.cons_append]
          rw [parseVal_negHead hd fuel, hparse]
          have : (-(n.natAbs : Int)) = n := by omega
          rw [this]
        · obtain ⟨d, ds, hshape, hd, hparse⟩ := parseDigits_printNat n.toNat rest hrest
          rw [show printInt n = printNat n.toNat by simp [printInt, hn], hshape]
          simp only [List.cons_append]
          rw [parseVal_digitHead hd fuel, hparse]
          have : ((n.toNat : Int)) = n := by omega
          rw [this]
      | jstr s =>
        show parseVal (fuel + 1) (('"' :: printStrBody s ++ ['"']) ++ rest) =
          some (jstr s, rest)
        unfold parseVal
        simp only [List.cons_append, List.append_assoc, List.singleton_append]
        rw [skipWS_cons_notWS (by decide)]
        simp [parseStrBody_printStrBody]
      | jarr a =>
        show parseVal (fuel + 1) (('[' :: printArr a) ++ rest) = some (jarr a, rest)
        have hsz : sizeA a ≤ fuel := by simp [sizeV] at hsize; omega
        unfold parseVal
        simp only [List.cons_append]
        rw [skipWS_cons_notWS (by decide)]
        show parseArrBody fuel (printArr a ++ rest) = some (jarr a, rest)
        exact ihA a rest hsz hrest
      | jobj o =>
        show parseVal (fuel + 1) (('{' :: printObj o) ++ rest) = some (jobj o, rest)
        have hsz : sizeO o ≤ fuel := by simp [sizeV] at hsize; omega
        unfold parseVal
        simp only [List.cons_append]
        rw [skipWS_cons_notWS (by decide)]
        show parseObjBody fuel (printObj o ++ rest) = some (jobj o, rest)
        exact ihO o rest hsz hrest
    · -- parseArrBody on a printed array body
      intro a rest hsize hrest
      cases a with
      | anil =>
        show parseArrBody (fuel + 1) ([']'] ++ rest) = some (jarr anil, rest)
        unfold parseArrBody
        simp only [List.singleton_append]
        rw [skipWS_cons_notWS (by decide)]
        rfl
      | acons v a' =>
        have hszv : sizeV v ≤ fuel := by
          have := sizeA_pos a'; simp [sizeA] at hsize; omega
        have hsza : sizeA a' ≤ fuel := by
          have := sizeV_pos v; simp [sizeA] at hsize; omega
        show parseArrBody (fuel + 1) ((jsonPrint v ++ printArrTail a') ++ rest) =
          some (jarr (acons v a'), rest)
        rw [List.append_assoc]
        rw [parseArrBody_default ?hnotb]
        case hnotb =>
          intro rest' hcontra
          rw [skipWS_jsonPrint] at hcontra
          obtain ⟨c, cs, hv, -, hne⟩ := jsonPrint_head v
          rw [hv, List.cons_append] at hcontra
          injection hcontra with h1 _
          exact hne h1
        simp only [ihV v _ hszv (restOK_printArrTail a' rest),
          ihAT a' rest hsza hrest]
    · -- parseArrTailP on a printed array tail
      intro a rest hsize hrest
      cases a with
      | anil =>
        show parseArrTailP (fuel + 1) ([']'] ++ rest) = some (anil, rest)
        unfold parseArrTailP
        simp only [List.singleton_append]
        rw [skipWS_cons_notWS (by decide)]
        rfl
      | acons v a' =>
        have hszv : sizeV v ≤ fuel := by
          have := sizeA_pos a'; simp [sizeA] at hsize; omega
        have hsza : sizeA a' ≤ fuel := by
          have := sizeV_pos v; simp [sizeA] at hsize; omega
        show parseArrTailP (fuel + 1) ((',' :: jsonPrint v ++ printArrTail a') ++ rest) =
          some (acons v a', rest)
        unfold parseArrTailP
        simp only [List.cons_append, List.append_assoc]
        rw [skipWS_cons_notWS (by decide)]
        simp only [ihV v _ hszv (restOK_printArrTail a' rest),
          ihAT a' rest hsza hrest]
    · -- parseObjBody on a printed object body
      intro o rest hsize hrest
      cases o with
      | onil =>
        show parseObjBody (fuel + 1) (['}'] ++ rest) = some (jobj onil, rest)
        unfold parseObjBody
        simp only [List.singleton_append]
        rw [skipWS_cons_notWS (by decide)]
        rfl
      | ocons k v o' =>
        have hszv : sizeV v ≤ fuel := by
          have := sizeO_pos o'; simp [sizeO] at hsize; omega
        have hszo : sizeO o' ≤ fuel := by
          have := sizeV_pos v; simp [sizeO] at hsize; omega
        show parseObjBody (fuel + 1)
          (('"' :: printStrBody k ++ '"' :: ':' :: jsonPrint v ++ printObjTail o') ++ rest) =
          some (jobj (ocons k v o'), rest)
        unfold parseObjBody
        simp only [List.cons_append, List.append_assoc]
        rw [skipWS_cons_notWS (by decide)]
        simp only [parseStrBody_printStrBody]
        rw [skipWS_cons_notWS (by decide)]
        simp only [ihV v _ hszv (restOK_printObjTail o' rest),
          ihOT o' rest hszo hrest]
    · -- parseObjTailP on a printed object tail
      intro o rest hsize hrest
      cases o with
      | onil =>
        show parseObjTailP (fuel + 1) (['}'] ++ rest) = some (onil, rest)
        unfold parseObjTailP
        simp only [List.singleton_append]
        rw [skipWS_cons_notWS (by decide)]
        rfl
      | ocons k v o' =>
        have hszv : sizeV v ≤ fuel := by
          have := sizeO_pos o'; simp [sizeO] at hsize; omega
        have hszo : sizeO o' ≤ fuel := by
          have := sizeV_pos v; simp [sizeO] at hsize; omega
        show parseObjTailP (fuel + 1)
          ((',' :: '"' :: printStrBody k ++ '"' :: ':' :: jsonPrint v ++ printObjTail o') ++ rest) =
          some (ocons k v o', rest)
        unfold parseObjTailP
        simp only [List.cons_append, List.append_assoc]
        rw [skipWS_cons_notWS (by decide)]
        simp only [skipWS_cons_notWS (show isJWS '"' = false from by decide)]
        simp only [parseStrBody_printStrBody]
        rw [skipWS_cons_notWS (by decide)]
        simp only [ihV v _ hszv (restOK_printObjTail o' rest),
          ihOT o' rest hszo hrest]

theorem printNat_ne_nil (n : Nat) : printNat n ≠ [] := by
  obtain ⟨m, ds, hshape, -⟩ := printNatAux_shape n n
  simp [printNat, hshape]

mutual

theorem sizeV_le_printLen : ∀ v : JSONValue, sizeV v ≤ 2 * (jsonPrint v).length
  | jnull => by simp [sizeV, jsonPrint]
  | jbool b => by cases b <;> simp [sizeV, jsonPrint]
  | jnum n => by
    have h : printInt n ≠ [] := by
      unfold printInt
      by_cases hn : n < 0 <;> simp [hn, printNat_ne_nil]
    have : 1 ≤ (printInt n).length := by
      cases hp : printInt n
      · exact absurd hp h
      · simp
    simp only [sizeV, jsonPrint]
    omega
  | jstr s => by simp [sizeV, jsonPrint]; omega
  | jarr a => by
    have h := sizeA_le_printArr a
    simp only [sizeV, jsonPrint, List.length_cons]
    omega
  | jobj o => by
    have h := sizeO_le_printObj o
    simp only [sizeV, jsonPrint, List.length_cons]
    omega

theorem sizeA_le_printArr : ∀ a : JArr, sizeA a ≤ 2 * (printArr a).length
  | anil => by simp [sizeA, printArr]
  | acons v rest => by
    have h1 := sizeV_le_printLen v
    have h2 := sizeA_le_printArrTail rest
    simp only [sizeA, printArr, List.length_append]
    linarith [Nat.sub_add_cancel (show 1 ≤ 2 * (printArrTail rest).length from by
      cases hp : printArrTail rest
      · cases rest <;> simp [printArrTail] at hp
      · simp; omega)]

theorem sizeA_le_printArrTail : ∀ a : JArr, sizeA a ≤ 2 * (printArrTail a).length - 1
  | anil => by simp [sizeA, printArrTail]
  | acons v rest => by
    have h1 := sizeV_le_printLen v
    have h2 := sizeA_le_printArrTail rest
    have h3 := sizeA_pos rest
    simp only [sizeA, printArrTail, List.length_cons, List.length_append]
    omega

theorem sizeO_le_printObj : ∀ o : JObj, sizeO o ≤ 2 * (printObj o).length
  | onil => by simp [sizeO, printObj]
  | ocons k v rest => by
    have h1 := sizeV_le_printLen v
    have h2 := sizeO_le_printObjTail rest
    have h3 := sizeO_pos rest
    simp only [sizeO, printObj, List.length_cons, List.length_append]
    linarith [Nat.sub_add_cancel (show 1 ≤ 2 * (printObjTail rest).length from by
      cases hp : printObjTail rest
      · cases rest <;> simp [printObjTail] at hp
      · simp; omega)]

theorem sizeO_le_printObjTail : ∀ o : JObj, sizeO o ≤ 2 * (printObjTail o).length - 1
  | onil => by simp [sizeO, printObjTail]
  | ocons k v rest => by
    have h1 := sizeV_le_printLen v
    have h2 := sizeO_le_printObjTail rest
    have h3 := sizeO_pos rest
    simp only [sizeO, printObjTail, List.length_cons, List.length_append]
    omega

end

/-- Round-trip of the JSON model: parsing a stringified value recovers it. -/
theorem jsonParse_jsonPrint (v : JSONValue) : jsonParse (jsonPrint v) = some v := by
  unfold jsonParse
  have hsz : sizeV v ≤ 2 * (jsonPrint v).length + 2 := by
    have := sizeV_le_printLen v
    omega
  have h := (parsePrintBundle (2 * (jsonPrint v).length + 2)).1 v [] hsz rfl
  rw [List.append_nil] at h
  rw [h]
  rfl

/-! Frame protocol (src/unnamed/part_000): `StreamStringPrefixes` and
`getStreamString` are translated from the source; the decoder
`parseStreamPart` lives in the shared `stream-parts` module, which is not
part of src/, and is therefore modelled from the spec. -/

/-- Frame kinds of the wire protocol (keys of `StreamStringPrefixes`). -/
inductive StreamKind where
  | text : StreamKind
  | function_call : StreamKind
  | data : StreamKind
deriving DecidableEq

/-- The map of prefixes for data in the stream (src/unnamed/part_000):
0 text, 1 function_call, 2 data. -/
def StreamStringPrefixes : StreamKind → Nat
  | .text => 0
  | .function_call => 1
  | .data => 2

/-- Payload of a frame: the value verbatim if it is a string
(`typeof value === 'string'`), else its JSON serialization. -/
def streamPayloadOf : JSONValue → List Char
  | jstr s => s
  | v => jsonPrint v

/-- Model of `getStreamString` (src/unnamed/part_000): prepends the prefix and
a colon, emits the payload, and appends a newline. -/
def getStreamString (type : StreamKind) (value : JSONValue) : List Char :=
  Nat.digitChar (StreamStringPrefixes type) :: ':' ::
    (streamPayloadOf value ++ ['\n'])

/-- Modelled from the spec: `parseStreamPart` (the shared `stream-parts` module
is not under src/).  Spec 4.3 and 6: match the leading digit-colon prefix to a
kind and return the type and value, where the payload is the literal string for
text frames and the JSON serialization of a structured value otherwise; lines
failing to match a known prefix are dropped (`none`). -/
def parseStreamPart (line : List Char) : Option (StreamKind × JSONValue) :=
  match line with
  | '0' :: ':' :: payload => some (.text, jstr payload)
  | '1' :: ':' :: payload => (jsonParse payload).map (fun v => (.function_call, v))
  | '2' :: ':' :: payload => (jsonParse payload).map (fun v => (.data, v))
  | _ => none

/-- Split a character list on newlines (model of `String.prototype.split('\n')`). -/
def splitOnNl : List Char → List (List Char)
  | [] => [[]]
  | c :: rest =>
    if c = '\n' then [] :: splitOnNl rest
    else
      match splitOnNl rest with
      | s :: ss => (c :: s) :: ss
      | [] => [[c]]

/-- Model of the complex branch of `createChunkDecoder` (src/unnamed/part_000):
split the decoded chunk on newlines, drop empty segments (splitting leaves an
empty string at the end), parse each line as a stream part, and drop lines that
fail to parse (`.filter(Boolean)`). -/
def createChunkDecoderComplex (chunk : List Char) : List (StreamKind × JSONValue) :=
  ((splitOnNl chunk).filter (fun l => !l.isEmpty)).filterMap parseStreamPart

/-- Is the value a JavaScript string? (`typeof value === 'string'`). -/
def isStr : JSONValue → Bool
  | jstr _ => true
  | _ => false

theorem isStr_true_iff {v : JSONValue} (h : isStr v = true) : ∃ s, v = jstr s := by
  cases v <;> simp_all [isStr]

theorem streamPayloadOf_not_str {v : JSONValue} (h : isStr v = false) :
    streamPayloadOf v = jsonPrint v := by
  cases v <;> simp_all [isStr, streamPayloadOf]

theorem splitOnNl_append_nl {cs : List Char} (h : '\n' ∉ cs) :
    splitOnNl (cs ++ ['\n']) = [cs, []] := by
  induction cs with
  | nil => rfl
  | cons c rest ih =>
    have hc : ¬c = '\n' := by
      intro he; exact h (by simp [he])
    have hrest : '\n' ∉ rest := by
      intro he; exact h (by simp [he])
    simp only [List.cons_append, splitOnNl, hc, if_false, List.append_eq, ih hrest]

/-- C2 counterexample: the round-trip claim fails for a text frame carrying a
non-string JSON value.  `getStreamString` serializes the number 42 to the
digits `42`, and the decoder returns the payload of a text frame as a string,
so decoding yields the string "42", not the number 42. -/
theorem c2_roundtrip_cex :
    createChunkDecoderComplex (getStreamString .text (jnum 42)) =
      [(.text, jstr (strL "42"))] ∧
    createChunkDecoderComplex (getStreamString .text (jnum 42)) ≠
      [(.text, jnum 42)] := by
  constructor
  · decide
  · decide

/-- C2 (amended): decoding an encoded wire line reproduces the original kind
and value for every kind/value pair whose payload representation is faithful:
a text frame with a string value, or a non-text (function_call/data) frame
with a non-string value, provided the payload contains no newline.  For a
text frame with a non-string value the decoder returns the serialized digits
as a string, and for a non-text frame with a string value the encoder emits
the string verbatim while the decoder JSON-parses it, so the round-trip law
fails there (see the counterexample). -/
theorem c2_roundtrip_amended (k : StreamKind) (v : JSONValue)
    (hmatch : (k = .text ∧ isStr v = true) ∨ (k ≠ .text ∧ isStr v = false))
    (hnl : '\n' ∉ streamPayloadOf v) :
    createChunkDecoderComplex (getStreamString k v) = [(k, v)] := by
  unfold createChunkDecoderComplex getStreamString
  rw [show Nat.digitChar (StreamStringPrefixes k) :: ':' ::
      (streamPayloadOf v ++ ['\n']) =
      (Nat.digitChar (StreamStringPrefixes k) :: ':' :: streamPayloadOf v) ++ ['\n']
    from by simp]
  have hnl2 : '\n' ∉ Nat.digitChar (StreamStringPrefixes k) :: ':' ::
      streamPayloadOf v := by
    intro hmem
    simp only [List.mem_cons] at hmem
    rcases hmem with h | h | h
    · cases k <;> exact absurd h (by decide)
    · exact absurd h (by decide)
    · exact hnl h
  rw [splitOnNl_append_nl hnl2]
  rcases hmatch with ⟨hk, hs⟩ | ⟨hk, hs⟩
  · subst hk
    obtain ⟨s, rfl⟩ := isStr_true_iff hs
    simp [parseStreamPart, StreamStringPrefixes, streamPayloadOf,
      show Nat.digitChar 0 = '0' from rfl]
  · rw [streamPayloadOf_not_str hs]
    cases k with
    | text => exact absurd rfl hk
    | function_call =>
      simp [parseStreamPart, StreamStringPrefixes, jsonParse_jsonPrint,
        show Nat.digitChar 1 = '1' from rfl]
    | data =>
      simp [parseStreamPart, StreamStringPrefixes, jsonParse_jsonPrint,
        show Nat.digitChar 2 = '2' from rfl]

/-- C2 witness: the amended round-trip at a concrete data frame. -/
theorem c2_roundtrip_witness :
    createChunkDecoderComplex
      (getStreamString .data (jobj (ocons (strL "a") (jnum 1) onil))) =
      [(.data, jobj (ocons (strL "a") (jnum 1) onil))] :=
  c2_roundtrip_amended .data (jobj (ocons (strL "a") (jnum 1) onil))
    (Or.inr ⟨by decide, by decide⟩) (by decide)

/-! Provider delta extractor: `chunkToText` (src/unnamed/part_001, lines
333-416) with its closure state (`trimStartOfStream`, `isFunctionStreamingIn`)
made explicit.  Only the fields that `chunkToText` reads are modelled. -/

/-- The `function` object inside a streamed tool call (`ToolCallFunction`). -/
structure ToolCallFunction where
  arguments : Option (List Char)
  name : Option (List Char)
deriving DecidableEq

/-- One entry of `delta.tool_calls` (`DeltaToolCall`).  The source field
`function` is a Lean keyword and is called `fn` here. -/
structure DeltaToolCall where
  index : Nat
  id : Option (List Char)
  fn : Option ToolCallFunction
deriving DecidableEq

/-- `delta.function_call` (`FunctionCall` from the shared types): streamed
name and argument fragments. -/
structure FunctionCallDelta where
  name : Option (List Char)
  arguments : Option (List Char)
deriving DecidableEq

/-- `ChoiceDelta` (src/unnamed/part_001): the fields `chunkToText` reads. -/
structure ChoiceDelta where
  content : Option (List Char)
  function_call : Option FunctionCallDelta
  tool_calls : Option (List DeltaToolCall)
deriving DecidableEq

/-- `finish_reason` of a chat-completion chunk choice (`null` for none). -/
inductive FinishReason where
  | stop : FinishReason
  | length : FinishReason
  | tool_calls : FinishReason
  | content_filter : FinishReason
  | function_call : FinishReason
  | null : FinishReason
deriving DecidableEq

/-- `ChatCompletionChunkChoice` (delta plus finish_reason). -/
structure ChatCompletionChunkChoice where
  delta : ChoiceDelta
  finish_reason : FinishReason
deriving DecidableEq

/-- `ChatCompletionChunk`: only `choices` is read by `chunkToText`. -/
structure ChatCompletionChunk where
  choices : List ChatCompletionChunkChoice
deriving DecidableEq

/-- A legacy `Completion` choice: only `text` is read. -/
structure CompletionChoice where
  text : List Char
deriving DecidableEq

/-- Legacy `Completion` shape. -/
structure Completion where
  choices : List CompletionChoice
deriving DecidableEq

/-- `OpenAIStreamReturnTypes`: a chat-completion chunk or a legacy completion
(the Azure variant is structurally translated to `ChatCompletionChunk` by
`streamable` before classification and is not modelled separately). -/
inductive OpenAIStreamChunk where
  | chat (c : ChatCompletionChunk)
  | completion (c : Completion)
deriving DecidableEq

/-- `isChatCompletionChunk`: `choices` present, nonempty, first has `delta`. -/
def isChatCompletionChunk : OpenAIStreamChunk → Bool
  | .chat c => !c.choices.isEmpty
  | .completion _ => false

/-- `isCompletion`: `choices` present, nonempty, first has `text`. -/
def isCompletion : OpenAIStreamChunk → Bool
  | .completion c => !c.choices.isEmpty
  | .chat _ => false

/-- JavaScript truthiness of an optional string (undefined and the empty
string are falsy). -/
def truthyStr : Option (List Char) → Bool
  | some s => !s.isEmpty
  | none => false

/-- JavaScript template-literal interpolation of a possibly-undefined string
(`undefined` prints as the text "undefined"). -/
def jsShow : Option (List Char) → List Char
  | some s => s
  | none => strL "undefined"

/-- Model of `cleanupArguments`' escaping for one character.  The source
applies sequential global `.replace` passes (backslash first, then slash,
quote, newline, carriage return, tab, form feed); since no replacement output
contains a target of a later pass, the composition equals this per-character
map. -/
def cleanupEscape (c : Char) : List Char :=
  if c = '\\' then ['\\', '\\']
  else if c = '/' then ['\\', '/']
  else if c = '"' then ['\\', '"']
  else if c = '\n' then ['\\', 'n']
  else if c = '\r' then ['\\', 'r']
  else if c = '\t' then ['\\', 't']
  else if c.toNat = 12 then ['\\', 'f']
  else [c]

/-- `cleanupArguments` (src/unnamed/part_001 lines 404-415). -/
def cleanupArguments : List Char → List Char
  | [] => []
  | c :: rest => cleanupEscape c ++ cleanupArguments rest

/-- Result of one `chunkToText` invocation: a plain text delta (possibly
empty, dropped by the callers' truthiness checks) or a structured
JSON-fragment (`{isText: false, content}`). -/
inductive ExtractedMsg where
  | plain (s : List Char) : ExtractedMsg
  | structured (content : List Char) : ExtractedMsg
deriving DecidableEq

/-- Closure state of `chunkToText`: the `trimStartOfStreamHelper` flag and
`isFunctionStreamingIn`. -/
structure ChunkToTextState where
  isStreamStart : Bool
  isFunctionStreamingIn : Bool
deriving DecidableEq

def initialChunkToTextState : ChunkToTextState :=
  { isStreamStart := true, isFunctionStreamingIn := false }

/-- One step of `trimStartOfStreamHelper` (ai-stream.ts lines 260-270):
trim leading whitespace while at the start of the stream; once a nonempty
trimmed text is seen, stop trimming. -/
def trimStartStep (isStreamStart : Bool) (text : List Char) : Bool × List Char :=
  if isStreamStart then
    let t := text.dropWhile (fun c => c.isWhitespace)
    (t.isEmpty, t)
  else (false, text)

/-- The text delta the fallback path of `chunkToText` reads:
`isChatCompletionChunk(json) && json.choices[0].delta.content ?
json.choices[0].delta.content : isCompletion(json) ? json.choices[0].text : ''`. -/
def chunkTextSource (json : OpenAIStreamChunk) : List Char :=
  match json with
  | .chat c =>
    match c.choices with
    | ch :: _ => match ch.delta.content with | some s => s | none => []
    | [] => []
  | .completion c =>
    match c.choices with
    | ch :: _ => ch.text
    | [] => []

/-- Opening fragment for a function call (line 345). -/
def fnCallOpen (name : List Char) : List Char :=
  strL "\x7b\"function_call\": \x7b\"name\": \"" ++ name ++
    strL "\", \"arguments\": \""

/-- Opening fragment for the first tool call (index 0, line 353). -/
def toolCallOpenFirst (id name : List Char) : List Char :=
  strL "\x7b\"tool_calls\":[ \x7b\"id\": \"" ++ id ++
    strL "\", \"type\": \"function\", \"function\": \x7b\"name\": \"" ++ name ++
    strL "\", \"arguments\": \""

/-- Fragment closing the previous tool call and opening the next (line 358). -/
def toolCallOpenNext (id name : List Char) : List Char :=
  strL "\"\x7d\x7d, \x7b\"id\": \"" ++ id ++
    strL "\", \"type\": \"function\", \"function\": \x7b\"name\": \"" ++ name ++
    strL "\", \"arguments\": \""

/-- One invocation of the `chunkToText` closure (src/unnamed/part_001 lines
338-402), with the mutable closure state passed and returned explicitly.
Classification order follows the source: function-call name, tool-call name,
function-call arguments, tool-call arguments, terminal fragments, plain text. -/
def chunkToTextStep (st : ChunkToTextState) (json : OpenAIStreamChunk) :
    ChunkToTextState × ExtractedMsg :=
  match json with
  | .chat c =>
    match c.choices with
    | choice :: _ =>
      let delta := choice.delta
      if truthyStr (delta.function_call.bind (fun fc => fc.name)) then
        ({ st with isFunctionStreamingIn := true },
          .structured (fnCallOpen (jsShow (delta.function_call.bind (fun fc => fc.name)))))
      else if truthyStr ((delta.tool_calls.bind (fun tc => tc.head?)).bind
          (fun t => t.fn.bind (fun f => f.name))) then
        match delta.tool_calls.bind (fun tc => tc.head?) with
        | some toolCall =>
          ({ st with isFunctionStreamingIn := true },
            .structured (if toolCall.index = 0 then
              toolCallOpenFirst (jsShow toolCall.id)
                (jsShow (toolCall.fn.bind (fun f => f.name)))
            else
              toolCallOpenNext (jsShow toolCall.id)
                (jsShow (toolCall.fn.bind (fun f => f.name)))))
        | none => (st, .plain [])
      else if truthyStr (delta.function_call.bind (fun fc => fc.arguments)) then
        (st, .structured (cleanupArguments
          (jsShow (delta.function_call.bind (fun fc => fc.arguments)))))
      else if truthyStr ((delta.tool_calls.bind (fun tc => tc.head?)).bind
          (fun t => t.fn.bind (fun f => f.arguments))) then
        (st, .structured (cleanupArguments
          (jsShow ((delta.tool_calls.bind (fun tc => tc.head?)).bind
            (fun t => t.fn.bind (fun f => f.arguments))))))
      else if st.isFunctionStreamingIn &&
          (choice.finish_reason = .function_call || choice.finish_reason = .stop) then
        ({ st with isFunctionStreamingIn := false }, .structured (strL "\"\x7d\x7d"))
      else if st.isFunctionStreamingIn && choice.finish_reason = .tool_calls then
        ({ st with isFunctionStreamingIn := false }, .structured (strL "\"\x7d\x7d]\x7d"))
      else
        let (start2, t) := trimStartStep st.isStreamStart (chunkTextSource json)
        ({ st with isStreamStart := start2 }, .plain t)
    | [] =>
      let (start2, t) := trimStartStep st.isStreamStart (chunkTextSource json)
      ({ st with isStreamStart := start2 }, .plain t)
  | .completion _ =>
    let (start2, t) := trimStartStep st.isStreamStart (chunkTextSource json)
    ({ st with isStreamStart := start2 }, .plain t)

/-- Runs `chunkToText` over a chunk sequence, collecting every result. -/
def chunkToTextRun (st : ChunkToTextState) :
    List OpenAIStreamChunk → List ExtractedMsg
  | [] => []
  | c :: rest =>
    let r := chunkToTextStep st c
    r.2 :: chunkToTextRun r.1 rest

/-- The structured fragments of a message sequence, concatenated in order. -/
def structuredConcat (msgs : List ExtractedMsg) : List Char :=
  (msgs.filterMap (fun m =>
    match m with
    | .structured content => some content
    | .plain _ => none)).foldr (· ++ ·) []

/-! Claim C3: fragment aggregation for a streamed function call. -/

def c3Chunk1 : OpenAIStreamChunk :=
  .chat ⟨[⟨⟨none, some ⟨some (strL "f"), none⟩, none⟩, .null⟩]⟩

def c3Chunk2 : OpenAIStreamChunk :=
  .chat ⟨[⟨⟨none, some ⟨none, some (strL "\x7b\"a\":1")⟩, none⟩, .null⟩]⟩

def c3Chunk3 : OpenAIStreamChunk :=
  .chat ⟨[⟨⟨none, some ⟨none, some (strL "\x7d")⟩, none⟩, .null⟩]⟩

def c3Chunk4 : OpenAIStreamChunk :=
  .chat ⟨[⟨⟨none, none, none⟩, .function_call⟩]⟩

/-- C3: for the delta sequence name `f`, argument increments `{"a":1` and `}`,
and a terminal chunk with finish_reason `function_call`, the structured
fragments emitted by `chunkToText` concatenate to a string that parses as the
JSON object whose `function_call` field carries name `f` and arguments
`{"a":1}`. -/
theorem c3_fragment_aggregation :
    structuredConcat (chunkToTextRun initialChunkToTextState
      [c3Chunk1, c3Chunk2, c3Chunk3, c3Chunk4]) =
      strL "\x7b\"function_call\": \x7b\"name\": \"f\", \"arguments\": \"\x7b\\\"a\\\":1\x7d\"\x7d\x7d" ∧
    jsonParse (structuredConcat (chunkToTextRun initialChunkToTextState
      [c3Chunk1, c3Chunk2, c3Chunk3, c3Chunk4])) =
      some (jobj (ocons (strL "function_call")
        (jobj (ocons (strL "name") (jstr (strL "f"))
          (ocons (strL "arguments") (jstr (strL "\x7b\"a\":1\x7d")) onil)))
        onil)) := by
  exact ⟨by decide, by decide⟩

/-! Claim C4: tool-call multiplexing of two interleaved tool calls. -/

def c4Chunk1 : OpenAIStreamChunk :=
  .chat ⟨[⟨⟨none, none, some [⟨0, some (strL "id1"), some ⟨none, some (strL "f1")⟩⟩]⟩, .null⟩]⟩

def c4Chunk2 : OpenAIStreamChunk :=
  .chat ⟨[⟨⟨none, none, some [⟨0, none, some ⟨some (strL "\x7b\"x\":1\x7d"), none⟩⟩]⟩, .null⟩]⟩

def c4Chunk3 : OpenAIStreamChunk :=
  .chat ⟨[⟨⟨none, none, some [⟨1, some (strL "id2"), some ⟨none, some (strL "f2")⟩⟩]⟩, .null⟩]⟩

def c4Chunk4 : OpenAIStreamChunk :=
  .chat ⟨[⟨⟨none, none, some [⟨1, none, some ⟨some (strL "\x7b\"y\":2\x7d"), none⟩⟩]⟩, .null⟩]⟩

def c4Chunk5 : OpenAIStreamChunk :=
  .chat ⟨[⟨⟨none, none, none⟩, .tool_calls⟩]⟩

def c4Concat : List Char :=
  structuredConcat (chunkToTextRun initialChunkToTextState
    [c4Chunk1, c4Chunk2, c4Chunk3, c4Chunk4, c4Chunk5])

/-- Is the parsed value a JSON array? -/
def isArr : JSONValue → Bool
  | jarr _ => true
  | _ => false

def c4ToolObj1 : JSONValue :=
  jobj (ocons (strL "id") (jstr (strL "id1"))
    (ocons (strL "type") (jstr (strL "function"))
      (ocons (strL "function")
        (jobj (ocons (strL "name") (jstr (strL "f1"))
          (ocons (strL "arguments") (jstr (strL "\x7b\"x\":1\x7d")) onil)))
        onil)))

def c4ToolObj2 : JSONValue :=
  jobj (ocons (strL "id") (jstr (strL "id2"))
    (ocons (strL "type") (jstr (strL "function"))
      (ocons (strL "function")
        (jobj (ocons (strL "name") (jstr (strL "f2"))
          (ocons (strL "arguments") (jstr (strL "\x7b\"y\":2\x7d")) onil)))
        onil)))

/-- C4 counterexample: the concatenated structured fragments of the
two-tool-call round parse successfully, but to a JSON object (the wrapper
`{"tool_calls": [...]}`), not to a JSON array as the claim states. -/
theorem c4_multiplex_cex :
    (jsonParse c4Concat).map isArr = some false := by decide

/-! Claim C5: the `cleanupArguments` escaping keeps the cumulative argument
text valid inside a JSON string literal. -/

/-- Characters whose escaping `cleanupArguments` handles: everything from
space upward, plus the control characters that get a short escape (newline,
carriage return, tab, form feed).  Other control characters (backspace,
anything below 0x20 without a short escape) pass through unescaped. -/
def goodArgChar (c : Char) : Bool :=
  (32 ≤ c.toNat) || c = '\n' || c = '\r' || c = '\t' || (c.toNat = 12)

def concatAll (ls : List (List Char)) : List Char := ls.foldr (· ++ ·) []

theorem cleanupArguments_append (a b : List Char) :
    cleanupArguments (a ++ b) = cleanupArguments a ++ cleanupArguments b := by
  induction a with
  | nil => rfl
  | cons c rest ih => simp [cleanupArguments, ih, List.append_assoc]

theorem concatAll_map_cleanup (ls : List (List Char)) :
    concatAll (ls.map cleanupArguments) = cleanupArguments (concatAll ls) := by
  induction ls with
  | nil => rfl
  | cons s rest ih => simp [concatAll, cleanupArguments_append, List.foldr] at ih ⊢
                      rw [ih]

theorem parseStrBody_cleanup (s : List Char) :
    ∀ rest, (∀ c ∈ s, goodArgChar c = true) →
    parseStrBody (cleanupArguments s ++ '"' :: rest) = some (s, rest) := by
  induction s with
  | nil =>
    intro rest _
    show parseStrBody ('"' :: rest) = some ([], rest)
    unfold parseStrBody
    simp
  | cons c s ih =>
    intro rest hgood
    have hc : goodArgChar c = true := hgood c (by simp)
    have hs : ∀ c' ∈ s, goodArgChar c' = true := fun c' hc' => hgood c' (by simp [hc'])
    simp only [cleanupArguments, List.append_assoc]
    by_cases h1 : c = '\\'
    · subst h1; simp [cleanupEscape, parseStrBody, escTable, ih rest hs]
    by_cases h2 : c = '/'
    · subst h2; simp [cleanupEscape, parseStrBody, escTable, ih rest hs]
    by_cases h3 : c = '"'
    · subst h3; simp [cleanupEscape, parseStrBody, escTable, ih rest hs]
    by_cases h4 : c = '\n'
    · subst h4; simp [cleanupEscape, parseStrBody, escTable, ih rest hs]
    by_cases h5 : c = '\r'
    · subst h5; simp [cleanupEscape, parseStrBody, escTable, ih rest hs]
    by_cases h6 : c = '\t'
    · subst h6; simp [cleanupEscape, parseStrBody, escTable, ih rest hs]
    by_cases h7 : c.toNat = 12
    · have hcc : c = Char.ofNat 12 := by rw [← h7, Char.ofNat_toNat]
      subst hcc
      simp [cleanupEscape, parseStrBody, escTable, ih rest hs]
    · have h32 : ¬c.toNat < 32 := by
        simp only [goodArgChar, Bool.or_eq_true, decide_eq_true_eq] at hc
        rcases hc with (((hle | he) | he) | he) | he
        · omega
        · exact absurd he h4
        · exact absurd he h5
        · exact absurd he h6
        · exact absurd he h7
      have hesc : cleanupEscape c = [c] := by
        simp [cleanupEscape, h1, h2, h3, h4, h5, h6, h7]
      rw [hesc]
      simp only [List.singleton_append]
      unfold parseStrBody
      simp [h3, h1, h32, ih rest hs]

/-- C5 counterexample: a backspace character (U+0008) in an argument increment
is not escaped by `cleanupArguments`, and the resulting text wrapped in double
quotes is not a valid JSON string literal (JSON forbids unescaped control
characters), so the claimed parse fails. -/
theorem c5_escaping_cex :
    cleanupArguments [Char.ofNat 8] = [Char.ofNat 8] ∧
    jsonParse ('"' :: (concatAll ([[Char.ofNat 8]].map cleanupArguments) ++ ['"'])) =
      none := by
  exact ⟨by decide, by decide⟩

/-- C5 (amended): for every sequence of argument increments whose characters
are either at least U+0020 or among the control characters with a short escape
(newline, carriage return, tab, form feed), applying `cleanupArguments` to
each increment yields a cumulative text that is valid inside a JSON string
literal: wrapping the concatenation in double quotes parses as a JSON string
whose value is the concatenation of the original increments.  An increment
containing any other control character (such as backspace) breaks the
property, see the counterexample. -/
theorem c5_escaping_amended (increments : List (List Char))
    (h : ∀ s ∈ increments, ∀ c ∈ s, goodArgChar c = true) :
    jsonParse ('"' :: (concatAll (increments.map cleanupArguments) ++ ['"'])) =
      some (jstr (concatAll increments)) := by
  rw [concatAll_map_cleanup]
  have hgood : ∀ c ∈ concatAll increments, goodArgChar c = true := by
    intro c hc
    induction increments with
    | nil => simp [concatAll] at hc
    | cons s rest ih =>
      simp only [concatAll, List.foldr, List.mem_append] at hc
      rcases hc with hc | hc
      · exact h s (by simp) c hc
      · exact ih (fun s' hs' => h s' (by simp [hs'])) (by simpa [concatAll] using hc)
  unfold jsonParse
  rw [show 2 * ('"' :: (cleanupArguments (concatAll increments) ++ ['"'])).length + 2 =
    (2 * ('"' :: (cleanupArguments (concatAll increments) ++ ['"'])).length + 1) + 1
    from rfl]
  unfold parseVal
  rw [skipWS_cons_notWS (by decide)]
  have harm := parseStrBody_cleanup (concatAll increments) [] hgood
  simp [harm, skipWS]

/-- C5 witness: the amended claim at concrete increments containing quotes,
braces and a newline. -/
theorem c5_escaping_witness :
    jsonParse ('"' :: (concatAll ([strL "\x7b\"a\":", strL "1\x7d\n"].map
        cleanupArguments) ++ ['"'])) =
      some (jstr (concatAll [strL "\x7b\"a\":", strL "1\x7d\n"])) :=
  c5_escaping_amended [strL "\x7b\"a\":", strL "1\x7d\n"] (by decide)

/-! Universal parsing lemmas for the tool-call multiplexing template.  The
opening fragments interpolate the tool id and function name verbatim into a
JSON string literal, so the guarded statement requires their characters to be
representable verbatim (printable, no quote, no backslash); the argument
increments go through `cleanupArguments` exactly as in the escaping claim. -/

/-- Characters that stand for themselves inside a JSON string literal. -/
def plainStrChar (c : Char) : Bool :=
  (32 <= c.toNat) && !(c = '"') && !(c = '\\')

theorem parseStrBody_plain (s : List Char)
    (h : ∀ c ∈ s, plainStrChar c = true) :
    ∀ rest, parseStrBody (s ++ '"' :: rest) = some (s, rest) := by
  induction s with
  | nil =>
    intro rest
    show parseStrBody ('"' :: rest) = some ([], rest)
    unfold parseStrBody
    simp
  | cons c s ih =>
    intro rest
    have hc : plainStrChar c = true := h c (by simp)
    have hs : ∀ c' ∈ s, plainStrChar c' = true := fun c' hc' => h c' (by simp [hc'])
    simp only [plainStrChar, Bool.and_eq_true, Bool.not_eq_true',
      decide_eq_true_eq, decide_eq_false_iff_not] at hc
    obtain ⟨⟨h32, hq⟩, hb⟩ := hc
    simp only [List.cons_append]
    unfold parseStrBody
    simp [hq, hb, show ¬c.toNat < 32 from by omega, ih hs rest]

theorem skipWS_ws_cons {c : Char} (h : isJWS c = true) (cs : List Char) :
    skipWS (c :: cs) = skipWS cs := by
  simp [skipWS, h]

/-- The parsed form of one well-formed tool-call object as assembled by the
opening/closing fragments: its own id, the literal type `function`, and a
`function` object carrying its own name and decoded arguments. -/
def toolObjVal (tid tname A : List Char) : JSONValue :=
  jobj (ocons (strL "id") (jstr tid)
    (ocons (strL "type") (jstr (strL "function"))
      (ocons (strL "function")
        (jobj (ocons (strL "name") (jstr tname)
          (ocons (strL "arguments") (jstr A) onil)))
        onil)))

theorem parseObjTailP_close (fuel : Nat) (rest : List Char) :
    parseObjTailP (fuel + 1) ('\x7d' :: rest) = some (onil, rest) := by
  unfold parseObjTailP
  rw [skipWS_cons_notWS (by decide)]
  rfl

theorem parseVal_str_ws (fuel : Nat) (s A rest : List Char)
    (h : ∀ r, parseStrBody (s ++ '"' :: r) = some (A, r)) :
    parseVal (fuel + 1) (' ' :: '"' :: (s ++ '"' :: rest)) =
      some (jstr A, rest) := by
  unfold parseVal
  rw [skipWS_ws_cons (by decide), skipWS_cons_notWS (by decide)]
  simp [h rest]

theorem parseObjTailP_closeF (rest : List Char) :
    ∀ fuel, 1 ≤ fuel → parseObjTailP fuel ('\x7d' :: rest) = some (onil, rest) := by
  intro fuel hf
  obtain ⟨g, rfl⟩ : ∃ g, fuel = g + 1 := ⟨fuel - 1, by omega⟩
  exact parseObjTailP_close g rest

theorem parseVal_str_wsF (s A rest : List Char)
    (h : ∀ r, parseStrBody (s ++ '"' :: r) = some (A, r)) :
    ∀ fuel, 1 ≤ fuel → parseVal fuel (' ' :: '"' :: (s ++ '"' :: rest)) =
      some (jstr A, rest) := by
  intro fuel hf
  obtain ⟨g, rfl⟩ : ∃ g, fuel = g + 1 := ⟨fuel - 1, by omega⟩
  exact parseVal_str_ws g s A rest h

/-- Parses the inner `function` object of a tool-call entry as assembled by
the stream fragments: `\x20\x7b"name": "N", "arguments": "E"\x7d`. -/
theorem parseVal_fnObj (tname E A rest : List Char)
    (hname : ∀ r, parseStrBody (tname ++ '"' :: r) = some (tname, r))
    (hargs : ∀ r, parseStrBody (E ++ '"' :: r) = some (A, r)) :
    ∀ fuel, 4 ≤ fuel →
    parseVal fuel
      (' ' :: '\x7b' :: '"' :: (strL "name" ++ '"' :: ':' :: ' ' :: '"' ::
        (tname ++ '"' :: ',' :: ' ' :: '"' ::
        (strL "arguments" ++ '"' :: ':' :: ' ' :: '"' ::
        (E ++ '"' :: '\x7d' :: rest))))) =
      some (jobj (ocons (strL "name") (jstr tname)
        (ocons (strL "arguments") (jstr A) onil)), rest) := by
  intro fuel hf
  obtain ⟨g, rfl⟩ : ∃ g, fuel = g + 1 := ⟨fuel - 1, by omega⟩
  unfold parseVal
  rw [skipWS_ws_cons (by decide), skipWS_cons_notWS (by decide)]
  show parseObjBody g ('"' :: (strL "name" ++ '"' :: ':' :: ' ' :: '"' ::
    (tname ++ '"' :: ',' :: ' ' :: '"' ::
    (strL "arguments" ++ '"' :: ':' :: ' ' :: '"' ::
    (E ++ '"' :: '\x7d' :: rest))))) = _
  obtain ⟨g2, rfl⟩ : ∃ g2, g = g2 + 1 := ⟨g - 1, by omega⟩
  unfold parseObjBody
  have hk := parseStrBody_plain (strL "name") (by decide)
  have hk2 := parseStrBody_plain (strL "arguments") (by decide)
  have hv : ∀ r, parseVal g2 (' ' :: '"' :: (tname ++ '"' :: r)) =
      some (jstr tname, r) :=
    fun r => parseVal_str_wsF tname tname r hname g2 (by omega)
  simp only [skipWS_cons_notWS (show isJWS '"' = false from by decide), hk,
    skipWS_cons_notWS (show isJWS ':' = false from by decide), hv]
  have hot : parseObjTailP g2 (',' :: ' ' :: '"' ::
      (strL "arguments" ++ '"' :: ':' :: ' ' :: '"' ::
      (E ++ '"' :: '\x7d' :: rest))) =
      some (ocons (strL "arguments") (jstr A) onil, rest) := by
    obtain ⟨g3, rfl⟩ : ∃ g3, g2 = g3 + 1 := ⟨g2 - 1, by omega⟩
    unfold parseObjTailP
    have hv2 : ∀ r, parseVal g3 (' ' :: '"' :: (E ++ '"' :: r)) =
        some (jstr A, r) :=
      fun r => parseVal_str_wsF E A r hargs g3 (by omega)
    simp only [skipWS_cons_notWS (show isJWS ',' = false from by decide),
      skipWS_ws_cons (show isJWS ' ' = true from by decide),
      skipWS_cons_notWS (show isJWS '"' = false from by decide), hk2,
      skipWS_cons_notWS (show isJWS ':' = false from by decide), hv2,
      parseObjTailP_closeF rest g3 (by omega)]
  rw [hot]

/-- Parses one complete tool-call object as assembled by the opening
fragments and the closing `"\x7d\x7d`. -/
theorem parseVal_toolObj (tid tname E A rest : List Char)
    (hid : ∀ r, parseStrBody (tid ++ '"' :: r) = some (tid, r))
    (hname : ∀ r, parseStrBody (tname ++ '"' :: r) = some (tname, r))
    (hargs : ∀ r, parseStrBody (E ++ '"' :: r) = some (A, r)) :
    ∀ fuel, 8 ≤ fuel →
    parseVal fuel
      (' ' :: '\x7b' :: '"' :: (strL "id" ++ '"' :: ':' :: ' ' :: '"' ::
        (tid ++ '"' :: ',' :: ' ' :: '"' ::
        (strL "type" ++ '"' :: ':' :: ' ' :: '"' ::
        (strL "function" ++ '"' :: ',' :: ' ' :: '"' ::
        (strL "function" ++ '"' :: ':' :: ' ' :: '\x7b' :: '"' ::
        (strL "name" ++ '"' :: ':' :: ' ' :: '"' ::
        (tname ++ '"' :: ',' :: ' ' :: '"' ::
        (strL "arguments" ++ '"' :: ':' :: ' ' :: '"' ::
        (E ++ '"' :: '\x7d' :: '\x7d' :: rest)))))))))) =
      some (toolObjVal tid tname A, rest) := by
  intro fuel hf
  obtain ⟨g, rfl⟩ : ∃ g, fuel = g + 1 := ⟨fuel - 1, by omega⟩
  unfold parseVal
  rw [skipWS_ws_cons (by decide), skipWS_cons_notWS (by decide)]
  show parseObjBody g ('"' :: (strL "id" ++ '"' :: ':' :: ' ' :: '"' ::
    (tid ++ '"' :: ',' :: ' ' :: '"' ::
    (strL "type" ++ '"' :: ':' :: ' ' :: '"' ::
    (strL "function" ++ '"' :: ',' :: ' ' :: '"' ::
    (strL "function" ++ '"' :: ':' :: ' ' :: '\x7b' :: '"' ::
    (strL "name" ++ '"' :: ':' :: ' ' :: '"' ::
    (tname ++ '"' :: ',' :: ' ' :: '"' ::
    (strL "arguments" ++ '"' :: ':' :: ' ' :: '"' ::
    (E ++ '"' :: '\x7d' :: '\x7d' :: rest)))))))))) = _
  obtain ⟨g2, rfl⟩ : ∃ g2, g = g2 + 1 := ⟨g - 1, by omega⟩
  unfold parseObjBody
  have hkid := parseStrBody_plain (strL "id") (by decide)
  have hvid : ∀ r, parseVal g2 (' ' :: '"' :: (tid ++ '"' :: r)) =
      some (jstr tid, r) :=
    fun r => parseVal_str_wsF tid tid r hid g2 (by omega)
  simp only [skipWS_cons_notWS (show isJWS '"' = false from by decide), hkid,
    skipWS_cons_notWS (show isJWS ':' = false from by decide), hvid]
  have htype : parseObjTailP g2 (',' :: ' ' :: '"' ::
      (strL "type" ++ '"' :: ':' :: ' ' :: '"' ::
      (strL "function" ++ '"' :: ',' :: ' ' :: '"' ::
      (strL "function" ++ '"' :: ':' :: ' ' :: '\x7b' :: '"' ::
      (strL "name" ++ '"' :: ':' :: ' ' :: '"' ::
      (tname ++ '"' :: ',' :: ' ' :: '"' ::
      (strL "arguments" ++ '"' :: ':' :: ' ' :: '"' ::
      (E ++ '"' :: '\x7d' :: '\x7d' :: rest)))))))) =
      some (ocons (strL "type") (jstr (strL "function"))
        (ocons (strL "function")
          (jobj (ocons (strL "name") (jstr tname)
            (ocons (strL "arguments") (jstr A) onil))) onil), rest) := by
    obtain ⟨g3, rfl⟩ : ∃ g3, g2 = g3 + 1 := ⟨g2 - 1, by omega⟩
    unfold parseObjTailP
    have hktype := parseStrBody_plain (strL "type") (by decide)
    have hvt : ∀ r, parseVal g3 (' ' :: '"' ::
        (strL "function" ++ '"' :: r)) = some (jstr (strL "function"), r) :=
      fun r => parseVal_str_wsF (strL "function") (strL "function") r
        (parseStrBody_plain (strL "function") (by decide)) g3 (by omega)
    simp only [skipWS_cons_notWS (show isJWS ',' = false from by decide),
      skipWS_ws_cons (show isJWS ' ' = true from by decide),
      skipWS_cons_notWS (show isJWS '"' = false from by decide), hktype,
      skipWS_cons_notWS (show isJWS ':' = false from by decide), hvt]
    have hfn : parseObjTailP g3 (',' :: ' ' :: '"' ::
        (strL "function" ++ '"' :: ':' :: ' ' :: '\x7b' :: '"' ::
        (strL "name" ++ '"' :: ':' :: ' ' :: '"' ::
        (tname ++ '"' :: ',' :: ' ' :: '"' ::
        (strL "arguments" ++ '"' :: ':' :: ' ' :: '"' ::
        (E ++ '"' :: '\x7d' :: '\x7d' :: rest)))))) =
        some (ocons (strL "function")
          (jobj (ocons (strL "name") (jstr tname)
            (ocons (strL "arguments") (jstr A) onil))) onil, rest) := by
      obtain ⟨g4, rfl⟩ : ∃ g4, g3 = g4 + 1 := ⟨g3 - 1, by omega⟩
      unfold parseObjTailP
      have hkfn := parseStrBody_plain (strL "function") (by decide)
      have hvf := parseVal_fnObj tname E A ('\x7d' :: rest) hname hargs g4
        (by omega)
      simp only [skipWS_cons_notWS (show isJWS ',' = false from by decide),
        skipWS_ws_cons (show isJWS ' ' = true from by decide),
        skipWS_cons_notWS (show isJWS '"' = false from by decide), hkfn,
        skipWS_cons_notWS (show isJWS ':' = false from by decide), hvf,
        parseObjTailP_closeF rest g4 (by omega)]
    rw [hfn]
  rw [htype]
  rfl

/-- The input on which the parser sees one assembled tool-call object (with
the single leading space the templates put after `[` and after `,`). -/
def toolObjInput (tid tname E rest : List Char) : List Char :=
  ' ' :: '\x7b' :: '"' :: (strL "id" ++ '"' :: ':' :: ' ' :: '"' ::
    (tid ++ '"' :: ',' :: ' ' :: '"' ::
    (strL "type" ++ '"' :: ':' :: ' ' :: '"' ::
    (strL "function" ++ '"' :: ',' :: ' ' :: '"' ::
    (strL "function" ++ '"' :: ':' :: ' ' :: '\x7b' :: '"' ::
    (strL "name" ++ '"' :: ':' :: ' ' :: '"' ::
    (tname ++ '"' :: ',' :: ' ' :: '"' ::
    (strL "arguments" ++ '"' :: ':' :: ' ' :: '"' ::
    (E ++ '"' :: '\x7d' :: '\x7d' :: rest)))))))))

theorem parseArrTailP_closeF (rest : List Char) :
    ∀ fuel, 1 ≤ fuel → parseArrTailP fuel (']' :: rest) = some (anil, rest) := by
  intro fuel hf
  obtain ⟨g, rfl⟩ : ∃ g, fuel = g + 1 := ⟨fuel - 1, by omega⟩
  unfold parseArrTailP
  rw [skipWS_cons_notWS (by decide)]
  rfl

/-- Parses the full multiplexed wire text of two interleaved tool calls:
the wrapper object with the two-element `tool_calls` array. -/
theorem parseVal_toolWrapper (id1 n1 E1 A1 id2 n2 E2 A2 : List Char)
    (hid1 : ∀ r, parseStrBody (id1 ++ '"' :: r) = some (id1, r))
    (hn1 : ∀ r, parseStrBody (n1 ++ '"' :: r) = some (n1, r))
    (hE1 : ∀ r, parseStrBody (E1 ++ '"' :: r) = some (A1, r))
    (hid2 : ∀ r, parseStrBody (id2 ++ '"' :: r) = some (id2, r))
    (hn2 : ∀ r, parseStrBody (n2 ++ '"' :: r) = some (n2, r))
    (hE2 : ∀ r, parseStrBody (E2 ++ '"' :: r) = some (A2, r)) :
    ∀ fuel, 13 ≤ fuel →
    parseVal fuel (toolCallOpenFirst id1 n1 ++ E1 ++
        toolCallOpenNext id2 n2 ++ E2 ++ strL "\"\x7d\x7d]\x7d") =
      some (jobj (ocons (strL "tool_calls")
        (jarr (acons (toolObjVal id1 n1 A1)
          (acons (toolObjVal id2 n2 A2) anil))) onil), []) := by
  intro fuel hf
  obtain ⟨g, rfl⟩ : ∃ g, fuel = g + 1 := ⟨fuel - 1, by omega⟩
  simp only [toolCallOpenFirst, toolCallOpenNext, List.append_assoc]
  show parseVal (g + 1) ('\x7b' :: '"' :: (strL "tool_calls" ++
    '"' :: ':' :: '[' :: toolObjInput id1 n1 E1 (',' ::
      toolObjInput id2 n2 E2 (']' :: '\x7d' :: [])))) = _
  unfold parseVal
  rw [skipWS_cons_notWS (by decide)]
  show parseObjBody g ('"' :: (strL "tool_calls" ++
    '"' :: ':' :: '[' :: toolObjInput id1 n1 E1 (',' ::
      toolObjInput id2 n2 E2 (']' :: '\x7d' :: [])))) = _
  obtain ⟨g2, rfl⟩ : ∃ g2, g = g2 + 1 := ⟨g - 1, by omega⟩
  unfold parseObjBody
  have hkey := parseStrBody_plain (strL "tool_calls") (by decide)
  have harr : parseVal g2 ('[' :: toolObjInput id1 n1 E1 (',' ::
      toolObjInput id2 n2 E2 (']' :: '\x7d' :: []))) =
      some (jarr (acons (toolObjVal id1 n1 A1)
        (acons (toolObjVal id2 n2 A2) anil)), '\x7d' :: []) := by
    obtain ⟨g3, rfl⟩ : ∃ g3, g2 = g3 + 1 := ⟨g2 - 1, by omega⟩
    unfold parseVal
    rw [skipWS_cons_notWS (by decide)]
    show parseArrBody g3 (toolObjInput id1 n1 E1 (',' ::
      toolObjInput id2 n2 E2 (']' :: '\x7d' :: []))) = _
    obtain ⟨g4, rfl⟩ : ∃ g4, g3 = g4 + 1 := ⟨g3 - 1, by omega⟩
    unfold parseArrBody
    have hobj1 : parseVal g4 (toolObjInput id1 n1 E1 (',' ::
        toolObjInput id2 n2 E2 (']' :: '\x7d' :: []))) =
        some (toolObjVal id1 n1 A1, ',' ::
          toolObjInput id2 n2 E2 (']' :: '\x7d' :: [])) :=
      parseVal_toolObj id1 n1 E1 A1 _ hid1 hn1 hE1 g4 (by omega)
    have htail : parseArrTailP g4 (',' ::
        toolObjInput id2 n2 E2 (']' :: '\x7d' :: [])) =
        some (acons (toolObjVal id2 n2 A2) anil, '\x7d' :: []) := by
      obtain ⟨g5, rfl⟩ : ∃ g5, g4 = g5 + 1 := ⟨g4 - 1, by omega⟩
      unfold parseArrTailP
      have hobj2 : parseVal g5 (toolObjInput id2 n2 E2 (']' :: '\x7d' :: [])) =
          some (toolObjVal id2 n2 A2, ']' :: '\x7d' :: []) :=
        parseVal_toolObj id2 n2 E2 A2 _ hid2 hn2 hE2 g5 (by omega)
      simp only [skipWS_cons_notWS (show isJWS ',' = false from by decide),
        hobj2, parseArrTailP_closeF ('\x7d' :: []) g5 (by omega)]
    have hskip : skipWS (toolObjInput id1 n1 E1 (',' ::
        toolObjInput id2 n2 E2 (']' :: '\x7d' :: []))) =
        '\x7b' :: '"' :: (strL "id" ++ '"' :: ':' :: ' ' :: '"' ::
          (id1 ++ '"' :: ',' :: ' ' :: '"' ::
          (strL "type" ++ '"' :: ':' :: ' ' :: '"' ::
          (strL "function" ++ '"' :: ',' :: ' ' :: '"' ::
          (strL "function" ++ '"' :: ':' :: ' ' :: '\x7b' :: '"' ::
          (strL "name" ++ '"' :: ':' :: ' ' :: '"' ::
          (n1 ++ '"' :: ',' :: ' ' :: '"' ::
          (strL "arguments" ++ '"' :: ':' :: ' ' :: '"' ::
          (E1 ++ '"' :: '\x7d' :: '\x7d' :: ',' ::
            toolObjInput id2 n2 E2 (']' :: '\x7d' :: [])))))))))) := by
      rw [toolObjInput, skipWS_ws_cons (by decide),
        skipWS_cons_notWS (by decide)]
    split
    · rename_i heq
      rw [hskip] at heq
      simp only [List.cons.injEq] at heq
      exact absurd heq.1 (by decide)
    · simp only [hobj1, htail]
  simp only [skipWS_cons_notWS (show isJWS '"' = false from by decide), hkey,
    skipWS_cons_notWS (show isJWS ':' = false from by decide), harr,
    parseObjTailP_closeF [] g2 (by omega)]

/-- `JSON.parse` succeeds whenever the fueled value parser consumes the whole
input at every sufficient fuel. -/
theorem jsonParse_of_parseVal (S : List Char) (v : JSONValue) (k : Nat)
    (hk : ∀ fuel, k ≤ fuel → parseVal fuel S = some (v, []))
    (hlen : k ≤ 2 * S.length + 2) :
    jsonParse S = some v := by
  unfold jsonParse
  rw [hk (2 * S.length + 2) hlen]
  simp [skipWS]

theorem goodArgChar_concatAll (l : List (List Char))
    (h : ∀ s ∈ l, ∀ c ∈ s, goodArgChar c = true) :
    ∀ c ∈ concatAll l, goodArgChar c = true := by
  induction l with
  | nil => intro c hc; simp [concatAll] at hc
  | cons s rest ih =>
    intro c hc
    simp only [concatAll, List.foldr, List.mem_append] at hc
    rcases hc with hc | hc
    · exact h s (by simp) c hc
    · exact ih (fun s' hs' => h s' (by simp [hs'])) c (by simpa [concatAll] using hc)

/-- A provider chunk opening tool call number `idx` (name present). -/
def toolOpenChunk (idx : Nat) (tid tname : List Char) : OpenAIStreamChunk :=
  .chat ⟨[⟨⟨none, none, some [⟨idx, some tid, some ⟨none, some tname⟩⟩]⟩, .null⟩]⟩

/-- A provider chunk streaming an argument increment for the current tool
call. -/
def toolArgChunk (idx : Nat) (a : List Char) : OpenAIStreamChunk :=
  .chat ⟨[⟨⟨none, none, some [⟨idx, none, some ⟨some a, none⟩⟩]⟩, .null⟩]⟩

/-- The terminal chunk of a tool-call round (`finish_reason: "tool_calls"`). -/
def toolCloseChunk : OpenAIStreamChunk :=
  .chat ⟨[⟨⟨none, none, none⟩, .tool_calls⟩]⟩

/-- A round streaming two tool calls interleaved by index: the opening chunk
of call 0, its argument increments, the opening chunk of call 1 (index > 0),
its argument increments, and the closing chunk. -/
def toolRound (id1 n1 : List Char) (args1 : List (List Char))
    (id2 n2 : List Char) (args2 : List (List Char)) : List OpenAIStreamChunk :=
  toolOpenChunk 0 id1 n1 :: (args1.map (toolArgChunk 0) ++
    (toolOpenChunk 1 id2 n2 :: (args2.map (toolArgChunk 1) ++ [toolCloseChunk])))

theorem chunkToTextStep_toolOpen (st : ChunkToTextState) (idx : Nat)
    (tid tname : List Char) (hn : tname ≠ []) :
    chunkToTextStep st (toolOpenChunk idx tid tname) =
      ({ st with isFunctionStreamingIn := true },
        .structured (if idx = 0 then toolCallOpenFirst tid tname
          else toolCallOpenNext tid tname)) := by
  unfold chunkToTextStep toolOpenChunk
  simp [truthyStr, jsShow, hn]

theorem chunkToTextStep_toolArg (st : ChunkToTextState) (idx : Nat)
    (a : List Char) (ha : a ≠ []) :
    chunkToTextStep st (toolArgChunk idx a) =
      (st, .structured (cleanupArguments a)) := by
  unfold chunkToTextStep toolArgChunk
  simp [truthyStr, jsShow, ha]

theorem chunkToTextStep_toolClose (st : ChunkToTextState)
    (hin : st.isFunctionStreamingIn = true) :
    chunkToTextStep st toolCloseChunk =
      ({ st with isFunctionStreamingIn := false },
        .structured (strL "\"\x7d\x7d]\x7d")) := by
  unfold chunkToTextStep toolCloseChunk
  simp [truthyStr, jsShow, hin]

theorem chunkToTextRun_args (st : ChunkToTextState) (idx : Nat)
    (args : List (List Char)) (rest : List OpenAIStreamChunk)
    (h : ∀ a ∈ args, a ≠ []) :
    chunkToTextRun st (args.map (toolArgChunk idx) ++ rest) =
      args.map (fun a => .structured (cleanupArguments a)) ++
        chunkToTextRun st rest := by
  induction args with
  | nil => simp
  | cons a as ih =>
    simp only [List.map_cons, List.cons_append, chunkToTextRun,
      chunkToTextStep_toolArg st idx a (h a (by simp))]
    simp [ih (fun a' ha' => h a' (by simp [ha']))]

theorem concatAll_foldr_init (l : List (List Char)) (init : List Char) :
    List.foldr (fun x1 x2 => x1 ++ x2) init l = concatAll l ++ init := by
  induction l with
  | nil => simp [concatAll]
  | cons s rest ih => simp [concatAll, ih, List.append_assoc]

theorem concatAll_append (l1 l2 : List (List Char)) :
    concatAll (l1 ++ l2) = concatAll l1 ++ concatAll l2 := by
  induction l1 with
  | nil => simp [concatAll]
  | cons a as ih =>
    simp only [List.cons_append, concatAll, List.foldr] at ih ⊢
    simp [ih, List.append_assoc]

theorem chunkToTextRun_cons (st : ChunkToTextState) (c : OpenAIStreamChunk)
    (rest : List OpenAIStreamChunk) :
    chunkToTextRun st (c :: rest) =
      (chunkToTextStep st c).2 ::
        chunkToTextRun (chunkToTextStep st c).1 rest := rfl

/-- The structured fragments of a two-tool-call interleaved round concatenate
to the full wire template. -/
theorem toolRound_concat (id1 n1 : List Char) (args1 : List (List Char))
    (id2 n2 : List Char) (args2 : List (List Char))
    (hn1 : n1 ≠ []) (hn2 : n2 ≠ [])
    (hargs1 : ∀ a ∈ args1, a ≠ []) (hargs2 : ∀ a ∈ args2, a ≠ []) :
    structuredConcat (chunkToTextRun initialChunkToTextState
      (toolRound id1 n1 args1 id2 n2 args2)) =
      toolCallOpenFirst id1 n1 ++ (concatAll (args1.map cleanupArguments) ++
        (toolCallOpenNext id2 n2 ++ (concatAll (args2.map cleanupArguments) ++
        strL "\"\x7d\x7d]\x7d"))) := by
  have ho1 : ∀ st : ChunkToTextState, chunkToTextStep st (toolOpenChunk 0 id1 n1) =
      ({ st with isFunctionStreamingIn := true },
        .structured (toolCallOpenFirst id1 n1)) := by
    intro st
    rw [chunkToTextStep_toolOpen st 0 id1 n1 hn1]
    simp
  have ho2 : ∀ st : ChunkToTextState, chunkToTextStep st (toolOpenChunk 1 id2 n2) =
      ({ st with isFunctionStreamingIn := true },
        .structured (toolCallOpenNext id2 n2)) := by
    intro st
    rw [chunkToTextStep_toolOpen st 1 id2 n2 hn2]
    simp
  have hr1 : ∀ (st : ChunkToTextState) rest,
      chunkToTextRun st (args1.map (toolArgChunk 0) ++ rest) =
        args1.map (fun a => .structured (cleanupArguments a)) ++
          chunkToTextRun st rest :=
    fun st rest => chunkToTextRun_args st 0 args1 rest hargs1
  have hr2 : ∀ (st : ChunkToTextState) rest,
      chunkToTextRun st (args2.map (toolArgChunk 1) ++ rest) =
        args2.map (fun a => .structured (cleanupArguments a)) ++
          chunkToTextRun st rest :=
    fun st rest => chunkToTextRun_args st 1 args2 rest hargs2
  simp only [toolRound, chunkToTextRun_cons, ho1, hr1, ho2, hr2,
    chunkToTextStep_toolClose]
  simp only [structuredConcat, List.filterMap_cons, List.filterMap_append,
    List.filterMap_map, chunkToTextRun]
  have hfm : ∀ (args : List (List Char)),
      List.filterMap ((fun m => match m with
        | ExtractedMsg.structured content => some content
        | ExtractedMsg.plain _ => none) ∘
        (fun a => ExtractedMsg.structured (cleanupArguments a))) args =
      args.map cleanupArguments := by
    intro args
    induction args with
    | nil => rfl
    | cons a as ih => simp [Function.comp, ih]
  simp only [hfm, concatAll_foldr_init]
  simp [show ∀ (x : List Char) (l : List (List Char)),
      concatAll (x :: l) = x ++ concatAll l from fun x l => rfl,
    show concatAll [] = ([] : List Char) from rfl, concatAll_append,
    List.append_assoc]

/-- C4 (amended): for EVERY round in which two tool calls are streamed
interleaved by index - arbitrary ids, nonempty names and nonempty argument
increments, with id and name characters representable verbatim in a JSON
string literal and argument characters within the escaper's supported set -
the concatenation of the emitted structured fragments parses as a single
valid JSON OBJECT whose `tool_calls` field is an array containing two
well-formed tool-call objects, each carrying its own id, name and (decoded)
arguments.  The concatenation is the wrapper object, not a bare JSON array
(see the counterexample). -/
theorem c4_multiplex_amended (id1 n1 id2 n2 : List Char)
    (args1 args2 : List (List Char))
    (hidp1 : ∀ c ∈ id1, plainStrChar c = true)
    (hnp1 : ∀ c ∈ n1, plainStrChar c = true)
    (hidp2 : ∀ c ∈ id2, plainStrChar c = true)
    (hnp2 : ∀ c ∈ n2, plainStrChar c = true)
    (hn1 : n1 ≠ []) (hn2 : n2 ≠ [])
    (hargs1 : ∀ a ∈ args1, a ≠ []) (hargs2 : ∀ a ∈ args2, a ≠ [])
    (hg1 : ∀ a ∈ args1, ∀ c ∈ a, goodArgChar c = true)
    (hg2 : ∀ a ∈ args2, ∀ c ∈ a, goodArgChar c = true) :
    jsonParse (structuredConcat (chunkToTextRun initialChunkToTextState
      (toolRound id1 n1 args1 id2 n2 args2))) =
      some (jobj (ocons (strL "tool_calls")
        (jarr (acons (toolObjVal id1 n1 (concatAll args1))
          (acons (toolObjVal id2 n2 (concatAll args2)) anil))) onil)) := by
  rw [toolRound_concat id1 n1 args1 id2 n2 args2 hn1 hn2 hargs1 hargs2]
  rw [concatAll_map_cleanup, concatAll_map_cleanup]
  have hg1c : ∀ c ∈ concatAll args1, goodArgChar c = true :=
    goodArgChar_concatAll args1 hg1
  have hg2c : ∀ c ∈ concatAll args2, goodArgChar c = true :=
    goodArgChar_concatAll args2 hg2
  have hw := parseVal_toolWrapper id1 n1 (cleanupArguments (concatAll args1))
    (concatAll args1) id2 n2 (cleanupArguments (concatAll args2))
    (concatAll args2)
    (parseStrBody_plain id1 hidp1) (parseStrBody_plain n1 hnp1)
    (fun r => parseStrBody_cleanup (concatAll args1) r hg1c)
    (parseStrBody_plain id2 hidp2) (parseStrBody_plain n2 hnp2)
    (fun r => parseStrBody_cleanup (concatAll args2) r hg2c)
  apply jsonParse_of_parseVal _ _ 13
  · intro fuel hf
    have h := hw fuel hf
    simpa [List.append_assoc] using h
  · have h24 : (strL "\x7b\"tool_calls\":[ \x7b\"id\": \"").length = 24 := by
      decide
    simp only [toolCallOpenFirst, List.length_append]
    omega

/-- C4: witness for the amended theorem, on the same concrete round as the
counterexample (ids id1/id2, names f1/f2, one argument increment each). -/
theorem c4_multiplex_witness :
    toolRound (strL "id1") (strL "f1") [strL "\x7b\"x\":1\x7d"]
      (strL "id2") (strL "f2") [strL "\x7b\"y\":2\x7d"] =
      [c4Chunk1, c4Chunk2, c4Chunk3, c4Chunk4, c4Chunk5] ∧
    ((strL "f1" : List Char) ≠ [] ∧ (strL "f2" : List Char) ≠ []) ∧
    jsonParse (structuredConcat (chunkToTextRun initialChunkToTextState
      (toolRound (strL "id1") (strL "f1") [strL "\x7b\"x\":1\x7d"]
        (strL "id2") (strL "f2") [strL "\x7b\"y\":2\x7d"]))) =
      some (jobj (ocons (strL "tool_calls")
        (jarr (acons (toolObjVal (strL "id1") (strL "f1")
            (concatAll [strL "\x7b\"x\":1\x7d"]))
          (acons (toolObjVal (strL "id2") (strL "f2")
            (concatAll [strL "\x7b\"y\":2\x7d"])) anil))) onil)) :=
  ⟨by decide, ⟨by decide, by decide⟩,
    c4_multiplex_amended (strL "id1") (strL "f1") (strL "id2") (strL "f2")
      [strL "\x7b\"x\":1\x7d"] [strL "\x7b\"y\":2\x7d"]
      (by decide) (by decide) (by decide) (by decide) (by decide) (by decide)
      (by decide) (by decide) (by decide) (by decide)⟩


/-! Callback / function-call transformer pipeline.

`createCallbacksTransformer` (ai-stream.ts lines 186-225),
`createFunctionCallTransformer` and `OpenAIStream` (src/unnamed/part_001) are
modelled as pure functions over the sequence of extracted messages a stream
leg produces.  The mutable per-stream state becomes explicit state passing;
user hooks become boolean configuration flags plus a recorded event trace;
the user handler's returned value is part of the input (`Src`): a leg either
ends with a handler that returns nothing / a string / throws, or continues
into a recursively streamed next leg.  The conversation-message list threaded
through the recursion (`functionCallMessages`) affects neither the emitted
frames nor the hook events and is not modelled. -/

/-- The consumer-supplied callback set, reduced to presence flags
(`AIStreamCallbacksAndOptions` / `OpenAIStreamCallbacks`).  `fnHandler` and
`toolHandler` model the presence of `experimental_onFunctionCall` /
`experimental_onToolCall`; `complex` models `experimental_streamData`. -/
structure CbSet where
  onStart : Bool
  onToken : Bool
  onText : Bool
  onCompletion : Bool
  onFinal : Bool
  fnHandler : Bool
  toolHandler : Bool
  complex : Bool
deriving DecidableEq

/-- Observable events of one run: hook invocations and console output. -/
inductive Event where
  | start : Event
  | token (s : List Char) : Event
  | text (s : List Char) : Event
  | completion (s : List Char) : Event
  | final (s : List Char) : Event
  | fnHandlerInvoked : Event
  | toolHandlerInvoked : Event
  | toolHandlerErrorLogged : Event
deriving DecidableEq

/-- Errors that abort a stream leg (propagated through the flush). -/
inductive Err where
  | parseError : Err
  | typeError : Err
  | handlerThrown : Err
deriving DecidableEq

/-- Payload of an emitted stream part. -/
inductive OutPartVal where
  | pstr (s : List Char) : OutPartVal
  | pjson (v : JSONValue) : OutPartVal
deriving DecidableEq

/-- Kinds used by `formatStreamPart` in the transformer. -/
inductive StreamPartKind where
  | text : StreamPartKind
  | function_call : StreamPartKind
  | tool_calls : StreamPartKind
deriving DecidableEq

/-- One item enqueued downstream.  Modelled from the spec: `formatStreamPart`
(the shared stream-parts module is not under src/) encodes a kind and a
payload as one wire line; the claims only depend on the kind and payload, so
frames are kept symbolic rather than serialized. -/
inductive OutItem where
  | chunk (s : List Char) : OutItem
  | part (k : StreamPartKind) (v : OutPartVal) : OutItem
deriving DecidableEq

def msgContent : ExtractedMsg → List Char
  | .plain s => s
  | .structured c => c

/-- Per-message work of `createCallbacksTransformer.transform`: enqueue the
content, aggregate it, fire `onToken` for every message and `onText` only for
plain string messages.  Returns (enqueued contents, events, aggregated text). -/
def callbacksTransform (cb : CbSet) :
    List ExtractedMsg → List (List Char) × List Event × List Char
  | [] => ([], [], [])
  | m :: rest =>
    let content := msgContent m
    let evs := (if cb.onToken then [Event.token content] else []) ++
      (match m with
       | .plain s => if cb.onText then [Event.text s] else []
       | .structured _ => [])
    let r := callbacksTransform cb rest
    (content :: r.1, evs ++ r.2.1, content ++ r.2.2)

/-- Model of `createCallbacksTransformer` (ai-stream.ts lines 186-225):
`onStart` on start; per-message transform; on flush `onCompletion` always and
`onFinal` only when the callback set is not an OpenAI callback set
(`'experimental_onFunctionCall' in callbacks`). -/
def runCallbacksTransformer (cb : CbSet) (msgs : List ExtractedMsg) :
    List (List Char) × List Event × List Char :=
  let startEvs := if cb.onStart then [Event.start] else []
  let t := callbacksTransform cb msgs
  let agg := t.2.2
  let flushEvs := (if cb.onCompletion then [Event.completion agg] else []) ++
    (if cb.onFinal && !cb.fnHandler then [Event.final agg] else [])
  (t.1, startEvs ++ t.2.1 ++ flushEvs, agg)

/-- Mutable state of `createFunctionCallTransformer`. -/
structure FCTState where
  isFirstChunk : Bool
  aggregatedResponse : List Char
  aggregatedFinal : List Char
  isFunctionStreamingIn : Bool
deriving DecidableEq

def initialFCTState : FCTState :=
  { isFirstChunk := true, aggregatedResponse := [], aggregatedFinal := [],
    isFunctionStreamingIn := false }

/-- The non-call forwarding of one message (lines 537-543): a text stream
part in complex mode, the raw chunk otherwise. -/
def textForward (complex : Bool) (message : List Char) : OutItem :=
  if complex then .part .text (.pstr message) else .chunk message

/-- `transform` of `createFunctionCallTransformer` (src/unnamed/part_001 lines
519-547) on one decoded message. -/
def fctTransformStep (complex : Bool) (st : FCTState) (message : List Char) :
    FCTState × List OutItem :=
  let st := { st with aggregatedFinal := st.aggregatedFinal ++ message }
  let shouldHandleAsFunction := st.isFirstChunk &&
    ((strL "\x7b\"function_call\":").isPrefixOf message ||
      (strL "\x7b\"tool_calls\":").isPrefixOf message)
  if shouldHandleAsFunction then
    ({ st with
        isFunctionStreamingIn := true
        aggregatedResponse := st.aggregatedResponse ++ message
        isFirstChunk := false }, [])
  else if !st.isFunctionStreamingIn then
    (st, [textForward complex message])
  else
    ({ st with aggregatedResponse := st.aggregatedResponse ++ message }, [])

def fctTransformAll (complex : Bool) :
    FCTState → List (List Char) → FCTState × List OutItem
  | st, [] => (st, [])
  | st, m :: rest =>
    let r := fctTransformStep complex st m
    let r2 := fctTransformAll complex r.1 rest
    (r2.1, r.2 ++ r2.2)

def objGet : JObj → List Char → Option JSONValue
  | onil, _ => none
  | ocons k v rest, key => if k = key then some v else objGet rest key

/-- JavaScript property read on a parsed JSON value (`undefined` = `none`). -/
def getField (v : JSONValue) (key : List Char) : Option JSONValue :=
  match v with
  | jobj o => objGet o key
  | _ => none

/-- JavaScript truthiness of a possibly-undefined JSON value. -/
def truthyJ : Option JSONValue → Bool
  | none => false
  | some jnull => false
  | some (jbool b) => b
  | some (jnum n) => decide (n ≠ 0)
  | some (jstr s) => !s.isEmpty
  | some (jarr _) => true
  | some (jobj _) => true

def jarrToList : JArr → List JSONValue
  | anil => []
  | acons v rest => v :: jarrToList rest

/-- A tool entry the `for (const tool of payload.tool_calls)` loop can read
without throwing: the element and its `function` field must not be
null/undefined (`tool.id`, `tool.function.name`, `tool.function.arguments`
are accessed). -/
def wellFormedTool (t : JSONValue) : Bool :=
  !(t = jnull) &&
    (match getField t (strL "function") with
     | some f => !(f = jnull)
     | none => false)

/-- What the invoked user handler does. -/
inductive HandlerBehavior where
  | noResult : HandlerBehavior
  | retStr (s : List Char) : HandlerBehavior
  | throws : HandlerBehavior
  | nextResponse : HandlerBehavior
deriving DecidableEq

/-- The handler phase of the flush (src/unnamed/part_001 lines 571-674): the
`experimental_onFunctionCall` branch runs first (its crashes and thrown
exceptions are NOT caught), then the `experimental_onToolCall` branch (whose
handler invocation alone sits in a try/catch; a thrown exception is logged
and leaves `functionResponse` at its previous value, i.e. undefined).
Events on a path that ends in an error are not recorded (no claim reads
them).  Iterating `payload.tool_calls` when it is not an array is modelled as
a TypeError (of non-array JSON values only a string is iterable in JS, and
element property access then throws unless the string is empty - a corner not
reachable from the extractor's output). -/
def fnHandlerStage (cb : CbSet) (payload : JSONValue) (b : HandlerBehavior) :
    Except Err (List Event × HandlerBehavior) :=
  if cb.fnHandler then
    match getField payload (strL "function_call") with
    | none => .error .typeError
    | some fc =>
      match getField fc (strL "arguments") with
      | some (jstr argsS) =>
        match jsonParse argsS with
        | none => .error .parseError
        | some _ =>
          match b with
          | .throws => .error .handlerThrown
          | b' => .ok ([Event.fnHandlerInvoked], b')
      | _ => .error .typeError
  else .ok ([], .noResult)

def flushHandlerPhase (cb : CbSet) (payload : JSONValue) (b : HandlerBehavior) :
    Except Err (List Event × HandlerBehavior) :=
  match fnHandlerStage cb payload b with
  | .error e => .error e
  | .ok (evs1, fr1) =>
    if cb.toolHandler then
      match getField payload (strL "tool_calls") with
      | some (jarr elems) =>
        if (jarrToList elems).all wellFormedTool then
          match b with
          | .throws =>
              .ok (evs1 ++ [Event.toolHandlerInvoked, Event.toolHandlerErrorLogged], fr1)
          | b' => .ok (evs1 ++ [Event.toolHandlerInvoked], b')
        else .error .typeError
      | _ => .error .typeError
    else .ok (evs1, fr1)

/-- What the relevant handler returns at the end of a leg when it does not
return a new streamable response. -/
inductive LegEnd where
  | noResult : LegEnd
  | retStr (s : List Char) : LegEnd
  | throws : LegEnd
deriving DecidableEq

/-- A stream source together with the scripted behavior of the user handler:
a leg is the sequence of extracted messages the provider produces; when the
leg completes a call and the handler is invoked, it either returns
nothing / a string / throws (`leg`), or returns a new streamable response
that is streamed recursively (`legCont`). -/
inductive Src where
  | leg (msgs : List ExtractedMsg) (e : LegEnd) : Src
  | legCont (msgs : List ExtractedMsg) (next : Src) : Src
deriving DecidableEq

def legEndBehavior : LegEnd → HandlerBehavior
  | .noResult => .noResult
  | .retStr s => .retStr s
  | .throws => .throws

def srcMsgs : Src → List ExtractedMsg
  | .leg msgs _ => msgs
  | .legCont msgs _ => msgs

def srcBehavior : Src → HandlerBehavior
  | .leg _ e => legEndBehavior e
  | .legCont _ _ => .nextResponse

/-- Result of running one (possibly recursive) `OpenAIStream` pipeline. -/
structure RunResult where
  out : List OutItem
  trace : List Event
  err : Option Err
deriving DecidableEq

/-- The terminal frame emitted when the handler produced no result
(src/unnamed/part_001 lines 713-728): in complex mode a
`function_call`/`tool_calls` stream part carrying the re-parsed aggregated
response (equal to `payload`), otherwise the raw aggregated text. -/
def terminalFrame (complex : Bool) (payload : JSONValue)
    (aggregated : List Char) : OutItem :=
  if complex then
    .part (if truthyJ (getField payload (strL "function_call"))
      then .function_call else .tool_calls) (.pjson payload)
  else .chunk aggregated

/-- The `finally` block of the flush (lines 767-771): fire `onFinal` with the
aggregated final completion text when the hook is (still) present and the
text is nonempty. -/
def finallyEvents (onFinalPresent : Bool) (aggFinal : List Char) : List Event :=
  if onFinalPresent && !aggFinal.isEmpty then [Event.final aggFinal] else []

/-- `flush` of `createFunctionCallTransformer` (src/unnamed/part_001 lines
548-772, the later of the two merged revisions, which suppresses only
`onStart` on recursion and nulls out `onFinal` before recursing).  `innerOpt`
is the pre-computed run of the recursive inner pipeline; it is consumed only
when the handler returned a new response (`HandlerBehavior.nextResponse`),
which the caller guarantees. -/
def fctFlush (cb : CbSet) (st : FCTState) (b : HandlerBehavior)
    (innerOpt : Option RunResult) : List OutItem × List Event × Option Err :=
  if !st.isFirstChunk && st.isFunctionStreamingIn &&
      (cb.fnHandler || cb.toolHandler) then
    match jsonParse st.aggregatedResponse with
    | none =>
      ([], finallyEvents cb.onFinal st.aggregatedFinal, some .parseError)
    | some payload =>
      match flushHandlerPhase cb payload b with
      | .error e =>
        ([], finallyEvents cb.onFinal st.aggregatedFinal, some e)
      | .ok (evs, fr) =>
        match fr with
        | .retStr s =>
          if s.isEmpty then
            -- the empty string is falsy: `!functionResponse` takes the
            -- terminal-frame branch
            ([terminalFrame cb.complex payload st.aggregatedResponse],
              evs ++ finallyEvents cb.onFinal st.aggregatedFinal, none)
          else
            ([if cb.complex then .part .text (.pstr s) else .chunk s],
              evs ++ finallyEvents cb.onFinal s, none)
        | .nextResponse =>
          match innerOpt with
          | some inner =>
            -- `callbacks.onFinal = undefined` precedes the recursion, so the
            -- outer finally fires no event; the inner stream is relayed
            (inner.out, evs ++ inner.trace, inner.err)
          | none =>
            -- unreachable: `flushHandlerPhase` returns `nextResponse` only
            -- when the input behavior is `nextResponse`, and then the caller
            -- passes the inner run
            ([], [], none)
        | _ =>
          ([terminalFrame cb.complex payload st.aggregatedResponse],
            evs ++ finallyEvents cb.onFinal st.aggregatedFinal, none)
  else
    ([], finallyEvents cb.onFinal st.aggregatedFinal, none)

/-- One leg of the `OpenAIStream` pipeline: the callbacks transformer (with
`onFinal` stripped when a handler is configured, as `OpenAIStream` does),
then - when a handler is configured - the function-call transformer with the
flush; without a handler the leg is piped through
`createStreamDataTransformer` instead, which with `experimental_streamData`
unset forwards the bytes unchanged (that module is not under src/; modelled
from the spec as a passthrough - no claim exercises it). -/
def runLeg (cb : CbSet) (msgs : List ExtractedMsg) (b : HandlerBehavior)
    (innerOpt : Option RunResult) : RunResult :=
  let handlerSet := cb.fnHandler || cb.toolHandler
  let cbT := if handlerSet then { cb with onFinal := false } else cb
  let ct := runCallbacksTransformer cbT msgs
  if handlerSet then
    let t := fctTransformAll cb.complex initialFCTState ct.1
    let f := fctFlush cb t.1 b innerOpt
    { out := t.2 ++ f.1, trace := ct.2.1 ++ f.2.1, err := f.2.2 }
  else
    { out := ct.1.map OutItem.chunk, trace := ct.2.1, err := none }

/-- Model of `OpenAIStream` (src/unnamed/part_001 lines 452-500) including
the recursive continuation: inner pipelines receive the callbacks with
`onStart` removed (`filteredCallbacks`), while `onFinal` was already nulled
on the outer callbacks object before recursing. -/
def runOpenAIStream (cb : CbSet) : Src → RunResult
  | .leg msgs e => runLeg cb msgs (legEndBehavior e) none
  | .legCont msgs next =>
    let inner := runOpenAIStream { cb with onStart := false } next
    runLeg cb msgs .nextResponse (some inner)

/-! Observation helpers and mirror functions used to state the lifecycle
claims. -/

def isStartEv : Event → Bool
  | .start => true
  | _ => false

def finalPayloads (tr : List Event) : List (List Char) :=
  tr.filterMap (fun e => match e with | .final s => some s | _ => none)

def completionPayloads (tr : List Event) : List (List Char) :=
  tr.filterMap (fun e => match e with | .completion s => some s | _ => none)

def tokenPayloads (tr : List Event) : List (List Char) :=
  tr.filterMap (fun e => match e with | .token s => some s | _ => none)

def textPayloads (tr : List Event) : List (List Char) :=
  tr.filterMap (fun e => match e with | .text s => some s | _ => none)

/-- Number of terminal call frames in an output. -/
def callFrameCount (out : List OutItem) : Nat :=
  out.countP (fun o => match o with
    | .part .function_call _ => true
    | .part .tool_calls _ => true
    | _ => false)

/-- The aggregated text of a leg (what `createCallbacksTransformer` and the
function-call transformer both accumulate). -/
def legConcat (msgs : List ExtractedMsg) : List Char :=
  concatAll (msgs.map msgContent)

/-- Mirror of the flush's control flow, used to state the lifecycle claims:
which branch the flush of a leg with messages `msgs` and handler behavior `b`
takes. -/
inductive LegOutcome where
  | noCall : LegOutcome
  | failed (e : Err) : LegOutcome
  | terminal : LegOutcome
  | strOut (s : List Char) : LegOutcome
  | recurse : LegOutcome
deriving DecidableEq

def legOutcomeF (cb : CbSet) (msgs : List ExtractedMsg) (b : HandlerBehavior) :
    LegOutcome :=
  let st := (fctTransformAll cb.complex initialFCTState
    (msgs.map msgContent)).1
  if !st.isFirstChunk && st.isFunctionStreamingIn &&
      (cb.fnHandler || cb.toolHandler) then
    match jsonParse st.aggregatedResponse with
    | none => .failed .parseError
    | some payload =>
      match flushHandlerPhase cb payload b with
      | .error e => .failed e
      | .ok (_, fr) =>
        match fr with
        | .retStr s => if s.isEmpty then .terminal else .strOut s
        | .nextResponse => .recurse
        | _ => .terminal
  else .noCall

/-- The text `onFinal` would be called with at the end of the round: the last
executed leg's aggregated text, or the string the handler returned there. -/
def finalTextF (cb : CbSet) : Src → List Char
  | .leg msgs e =>
    match legOutcomeF cb msgs (legEndBehavior e) with
    | .strOut s => s
    | _ => legConcat msgs
  | .legCont msgs next =>
    match legOutcomeF cb msgs .nextResponse with
    | .recurse => finalTextF { cb with onStart := false } next
    | .strOut s => s
    | _ => legConcat msgs

/-- Number of recursive continuations actually executed. -/
def contCountF (cb : CbSet) : Src → Nat
  | .leg _ _ => 0
  | .legCont msgs next =>
    if legOutcomeF cb msgs .nextResponse = .recurse then
      contCountF { cb with onStart := false } next + 1
    else 0

/-- The aggregated texts of the executed legs, in execution order. -/
def legAggsF (cb : CbSet) : Src → List (List Char)
  | .leg msgs _ => [legConcat msgs]
  | .legCont msgs next =>
    legConcat msgs ::
      (if legOutcomeF cb msgs .nextResponse = .recurse then
        legAggsF { cb with onStart := false } next
      else [])

example :
    runOpenAIStream
      { onStart := true, onToken := true, onText := true, onCompletion := true,
        onFinal := true, fnHandler := true, toolHandler := false,
        complex := true }
      (.leg [.plain (strL "hi")] .noResult) =
    { out := [.part .text (.pstr (strL "hi"))],
      trace := [.start, .token (strL "hi"), .text (strL "hi"),
        .completion (strL "hi"), .final (strL "hi")],
      err := none } := by decide

/-! Supporting lemmas for the lifecycle claims. -/

theorem callbacksTransform_outs (cb : CbSet) (msgs : List ExtractedMsg) :
    (callbacksTransform cb msgs).1 = msgs.map msgContent := by
  induction msgs with
  | nil => rfl
  | cons m rest ih => simp [callbacksTransform, ih]

theorem callbacksTransform_agg (cb : CbSet) (msgs : List ExtractedMsg) :
    (callbacksTransform cb msgs).2.2 = legConcat msgs := by
  induction msgs with
  | nil => rfl
  | cons m rest ih => simp [callbacksTransform, ih, legConcat, concatAll]

def isTokenOrText : Event → Bool
  | .token _ => true
  | .text _ => true
  | _ => false

/-- The per-message stage emits only `token`/`text` events. -/
theorem callbacksTransform_events (cb : CbSet) (msgs : List ExtractedMsg) :
    ∀ e ∈ (callbacksTransform cb msgs).2.1, isTokenOrText e = true := by
  induction msgs with
  | nil => intro e he; simp [callbacksTransform] at he
  | cons m rest ih =>
    intro e he
    simp only [callbacksTransform, List.mem_append] at he
    rcases he with he | he
    · cases m <;>
        cases hT : cb.onToken <;> cases hX : cb.onText <;>
        simp [hT, hX] at he <;>
        first
          | (subst he; rfl)
          | (rcases he with he | he <;> subst he <;> rfl)
    · exact ih e he

/-- Lists of `token`/`text` events carry no lifecycle events. -/
theorem tokenText_no_lifecycle (evs : List Event)
    (h : ∀ e ∈ evs, isTokenOrText e = true) :
    finalPayloads evs = [] ∧ completionPayloads evs = [] ∧
    evs.countP isStartEv = 0 := by
  induction evs with
  | nil => exact ⟨rfl, rfl, rfl⟩
  | cons e rest ih =>
    obtain ⟨h1, h2, h3⟩ := ih (fun e' he' => h e' (by simp [he']))
    have he := h e (by simp)
    cases e <;> simp [isTokenOrText] at he <;>
      simp [finalPayloads, completionPayloads, isStartEv, List.countP_cons] at h1 h2 h3 ⊢ <;>
      exact ⟨h1, h2, h3⟩

theorem fctTransformStep_aggFinal (complex : Bool) (st : FCTState)
    (m : List Char) :
    ((fctTransformStep complex st m).1).aggregatedFinal =
      st.aggregatedFinal ++ m := by
  simp only [fctTransformStep]
  split
  · rfl
  · split <;> rfl

theorem fctTransformAll_aggFinal (complex : Bool) (msgs : List (List Char)) :
    ∀ st, ((fctTransformAll complex st msgs).1).aggregatedFinal =
      st.aggregatedFinal ++ concatAll msgs := by
  induction msgs with
  | nil => intro st; simp [fctTransformAll, concatAll]
  | cons m rest ih =>
    intro st
    simp only [fctTransformAll]
    rw [ih, fctTransformStep_aggFinal]
    simp [concatAll]

/-- Events emitted by the handler phase are handler events only. -/
theorem fnHandlerStage_events {cb : CbSet} {payload : JSONValue}
    {b : HandlerBehavior} {r : List Event × HandlerBehavior}
    (h : fnHandlerStage cb payload b = .ok r) :
    r.1 = [] ∨ r.1 = [Event.fnHandlerInvoked] := by
  obtain ⟨evs0, fr0⟩ := r
  unfold fnHandlerStage at h
  by_cases hfn : cb.fnHandler = true
  · simp only [hfn, if_true] at h
    cases hfc : getField payload (strL "function_call") with
    | none => simp [hfc] at h
    | some fc =>
      simp only [hfc] at h
      cases harg : getField fc (strL "arguments") with
      | none => simp [harg] at h
      | some av =>
        simp only [harg] at h
        cases av with
        | jstr argsS =>
          cases hjp : jsonParse argsS with
          | none => simp [hjp] at h
          | some w =>
            simp only [hjp] at h
            cases b <;> simp only [] at h <;> try cases h
            all_goals right
            all_goals rfl
        | jnull => simp at h
        | jbool bb => simp at h
        | jnum n => simp at h
        | jarr a => simp at h
        | jobj o => simp at h
  · simp only [Bool.not_eq_true] at hfn
    simp only [hfn, Bool.false_eq_true, if_false] at h
    cases h
    left
    rfl

theorem flushHandlerPhase_events {cb : CbSet} {payload : JSONValue}
    {b : HandlerBehavior} {evs : List Event} {fr : HandlerBehavior}
    (h : flushHandlerPhase cb payload b = .ok (evs, fr)) :
    finalPayloads evs = [] ∧ completionPayloads evs = [] ∧
    evs.countP isStartEv = 0 ∧ tokenPayloads evs = [] ∧ textPayloads evs = [] := by
  unfold flushHandlerPhase at h
  cases hs : fnHandlerStage cb payload b with
  | error e => rw [hs] at h; cases h
  | ok r1 =>
    rw [hs] at h
    have hr1 := fnHandlerStage_events hs
    obtain ⟨evs1, fr1⟩ := r1
    simp only at h hr1
    by_cases ht : cb.toolHandler = true
    · simp only [ht, if_true] at h
      cases htc : getField payload (strL "tool_calls") with
      | none => simp [htc] at h
      | some tv =>
        simp only [htc] at h
        cases tv with
        | jarr elems =>
          by_cases hwf : (jarrToList elems).all wellFormedTool = true
          · simp only [hwf, if_true] at h
            cases b <;> simp only [] at h <;> cases h <;>
              rcases hr1 with hr | hr <;> subst hr <;>
              exact ⟨rfl, rfl, rfl, rfl, rfl⟩
          · simp only [Bool.not_eq_true] at hwf
            simp [hwf] at h
        | jnull => simp at h
        | jbool bb => simp at h
        | jnum n => simp at h
        | jstr s2 => simp at h
        | jobj o => simp at h
    · simp only [Bool.not_eq_true] at ht
      simp only [ht, Bool.false_eq_true, if_false] at h
      cases h
      rcases hr1 with hr | hr <;> subst hr <;> exact ⟨rfl, rfl, rfl, rfl, rfl⟩

theorem callbacksTransform_tokens (cb : CbSet) (msgs : List ExtractedMsg) :
    tokenPayloads (callbacksTransform cb msgs).2.1 =
      if cb.onToken then msgs.map msgContent else [] := by
  induction msgs with
  | nil => cases hT : cb.onToken <;> simp [callbacksTransform, tokenPayloads, hT]
  | cons m rest ih =>
    cases hT : cb.onToken <;> rw [hT] at ih <;>
      cases m <;> cases hX : cb.onText <;>
      simp [callbacksTransform, tokenPayloads, List.filterMap_append, hT, hX] <;>
      simpa [tokenPayloads] using ih

theorem callbacksTransform_texts (cb : CbSet) (msgs : List ExtractedMsg) :
    textPayloads (callbacksTransform cb msgs).2.1 =
      if cb.onText then msgs.filterMap (fun m =>
        match m with | .plain s => some s | .structured _ => none) else [] := by
  induction msgs with
  | nil => cases hX : cb.onText <;> simp [callbacksTransform, textPayloads, hX]
  | cons m rest ih =>
    cases hX : cb.onText <;> rw [hX] at ih <;>
      cases m <;> cases hT : cb.onToken <;>
      simp [callbacksTransform, textPayloads, List.filterMap_append, hT, hX] <;>
      simpa [textPayloads] using ih

theorem runCallbacks_outs (cb : CbSet) (msgs : List ExtractedMsg) :
    (runCallbacksTransformer cb msgs).1 = msgs.map msgContent := by
  simp [runCallbacksTransformer, callbacksTransform_outs]

theorem runCallbacks_agg (cb : CbSet) (msgs : List ExtractedMsg) :
    (runCallbacksTransformer cb msgs).2.2 = legConcat msgs := by
  simp [runCallbacksTransformer, callbacksTransform_agg]

theorem runCallbacks_startCount (cb : CbSet) (msgs : List ExtractedMsg) :
    (runCallbacksTransformer cb msgs).2.1.countP isStartEv =
      if cb.onStart then 1 else 0 := by
  have hmid := tokenText_no_lifecycle _ (callbacksTransform_events cb msgs)
  simp only [runCallbacksTransformer, List.countP_append]
  rw [hmid.2.2]
  cases hS : cb.onStart <;>
    cases hC : cb.onCompletion <;>
    cases hF : (cb.onFinal && !cb.fnHandler) <;>
    simp [hS, hC, hF, isStartEv, List.countP_cons]

theorem runCallbacks_finalPayloads (cb : CbSet) (msgs : List ExtractedMsg)
    (hof : cb.onFinal = false) :
    finalPayloads (runCallbacksTransformer cb msgs).2.1 = [] := by
  have hmid := tokenText_no_lifecycle _ (callbacksTransform_events cb msgs)
  simp only [runCallbacksTransformer, finalPayloads, List.filterMap_append]
  rw [show List.filterMap _ (callbacksTransform cb msgs).2.1 =
    finalPayloads (callbacksTransform cb msgs).2.1 from rfl, hmid.1]
  cases hS : cb.onStart <;> cases hC : cb.onCompletion <;>
    simp [hS, hC, hof, finalPayloads]

theorem runCallbacks_completionPayloads (cb : CbSet) (msgs : List ExtractedMsg) :
    completionPayloads (runCallbacksTransformer cb msgs).2.1 =
      if cb.onCompletion then [legConcat msgs] else [] := by
  have hmid := tokenText_no_lifecycle _ (callbacksTransform_events cb msgs)
  simp only [runCallbacksTransformer, completionPayloads, List.filterMap_append]
  rw [show List.filterMap _ (callbacksTransform cb msgs).2.1 =
    completionPayloads (callbacksTransform cb msgs).2.1 from rfl, hmid.2.1]
  rw [callbacksTransform_agg]
  cases hS : cb.onStart <;> cases hC : cb.onCompletion <;>
    cases hF : (cb.onFinal && !cb.fnHandler) <;>
    simp [hS, hC, hF, completionPayloads]

theorem runCallbacks_tokens (cb : CbSet) (msgs : List ExtractedMsg) :
    tokenPayloads (runCallbacksTransformer cb msgs).2.1 =
      if cb.onToken then msgs.map msgContent else [] := by
  simp only [runCallbacksTransformer, tokenPayloads, List.filterMap_append]
  rw [show List.filterMap _ (callbacksTransform cb msgs).2.1 =
    tokenPayloads (callbacksTransform cb msgs).2.1 from rfl,
    callbacksTransform_tokens]
  cases hS : cb.onStart <;> cases hC : cb.onCompletion <;>
    cases hF : (cb.onFinal && !cb.fnHandler) <;> cases hT : cb.onToken <;>
    simp [hS, hC, hF, hT, tokenPayloads]

theorem runCallbacks_texts (cb : CbSet) (msgs : List ExtractedMsg) :
    textPayloads (runCallbacksTransformer cb msgs).2.1 =
      if cb.onText then msgs.filterMap (fun m =>
        match m with | .plain s => some s | .structured _ => none) else [] := by
  simp only [runCallbacksTransformer, textPayloads, List.filterMap_append]
  rw [show List.filterMap _ (callbacksTransform cb msgs).2.1 =
    textPayloads (callbacksTransform cb msgs).2.1 from rfl,
    callbacksTransform_texts]
  cases hS : cb.onStart <;> cases hC : cb.onCompletion <;>
    cases hF : (cb.onFinal && !cb.fnHandler) <;> cases hX : cb.onText <;>
    simp [hS, hC, hF, hX, textPayloads]

/-! Branch equations for the flush, matching the branches of `legOutcomeF`. -/

theorem fctFlush_noCall (cb : CbSet) (st : FCTState) (b : HandlerBehavior)
    (innerOpt : Option RunResult)
    (h : (!st.isFirstChunk && st.isFunctionStreamingIn &&
      (cb.fnHandler || cb.toolHandler)) = false) :
    fctFlush cb st b innerOpt =
      ([], finallyEvents cb.onFinal st.aggregatedFinal, none) := by
  unfold fctFlush
  simp [h]

theorem fctFlush_parseFail (cb : CbSet) (st : FCTState) (b : HandlerBehavior)
    (innerOpt : Option RunResult)
    (h : (!st.isFirstChunk && st.isFunctionStreamingIn &&
      (cb.fnHandler || cb.toolHandler)) = true)
    (hp : jsonParse st.aggregatedResponse = none) :
    fctFlush cb st b innerOpt =
      ([], finallyEvents cb.onFinal st.aggregatedFinal, some .parseError) := by
  unfold fctFlush
  simp [h, hp]

theorem fctFlush_phaseFail (cb : CbSet) (st : FCTState) (b : HandlerBehavior)
    (innerOpt : Option RunResult) (payload : JSONValue) (e : Err)
    (h : (!st.isFirstChunk && st.isFunctionStreamingIn &&
      (cb.fnHandler || cb.toolHandler)) = true)
    (hp : jsonParse st.aggregatedResponse = some payload)
    (hph : flushHandlerPhase cb payload b = .error e) :
    fctFlush cb st b innerOpt =
      ([], finallyEvents cb.onFinal st.aggregatedFinal, some e) := by
  unfold fctFlush
  simp [h, hp, hph]

theorem fctFlush_terminal (cb : CbSet) (st : FCTState) (b : HandlerBehavior)
    (innerOpt : Option RunResult) (payload : JSONValue) (evs : List Event)
    (fr : HandlerBehavior)
    (h : (!st.isFirstChunk && st.isFunctionStreamingIn &&
      (cb.fnHandler || cb.toolHandler)) = true)
    (hp : jsonParse st.aggregatedResponse = some payload)
    (hph : flushHandlerPhase cb payload b = .ok (evs, fr))
    (hfr : fr = .noResult ∨ fr = .throws ∨ ∃ s, fr = .retStr s ∧ s = []) :
    fctFlush cb st b innerOpt =
      ([terminalFrame cb.complex payload st.aggregatedResponse],
        evs ++ finallyEvents cb.onFinal st.aggregatedFinal, none) := by
  unfold fctFlush
  rcases hfr with hfr | hfr | ⟨s, hfr, hs⟩
  · subst hfr; simp [h, hp, hph]
  · subst hfr; simp [h, hp, hph]
  · subst hfr; simp [h, hp, hph, hs]

theorem fctFlush_strOut (cb : CbSet) (st : FCTState) (b : HandlerBehavior)
    (innerOpt : Option RunResult) (payload : JSONValue) (evs : List Event)
    (s : List Char)
    (h : (!st.isFirstChunk && st.isFunctionStreamingIn &&
      (cb.fnHandler || cb.toolHandler)) = true)
    (hp : jsonParse st.aggregatedResponse = some payload)
    (hph : flushHandlerPhase cb payload b = .ok (evs, .retStr s))
    (hs : s ≠ []) :
    fctFlush cb st b innerOpt =
      ([if cb.complex then .part .text (.pstr s) else .chunk s],
        evs ++ finallyEvents cb.onFinal s, none) := by
  unfold fctFlush
  simp [h, hp, hph, hs]

theorem fctFlush_recurse (cb : CbSet) (st : FCTState) (b : HandlerBehavior)
    (inner : RunResult) (payload : JSONValue) (evs : List Event)
    (h : (!st.isFirstChunk && st.isFunctionStreamingIn &&
      (cb.fnHandler || cb.toolHandler)) = true)
    (hp : jsonParse st.aggregatedResponse = some payload)
    (hph : flushHandlerPhase cb payload b = .ok (evs, .nextResponse)) :
    fctFlush cb st b (some inner) =
      (inner.out, evs ++ inner.trace, inner.err) := by
  unfold fctFlush
  simp [h, hp, hph]

/-- When the function-handler stage succeeds, the resulting
`functionResponse` is the scripted behavior if that handler ran, else
undefined. -/
theorem fnHandlerStage_ok_fr {cb : CbSet} {payload : JSONValue}
    {b : HandlerBehavior} {r : List Event × HandlerBehavior}
    (h : fnHandlerStage cb payload b = .ok r) :
    (cb.fnHandler = true ∧ b ≠ .throws ∧ r.2 = b) ∨
    (cb.fnHandler = false ∧ r.2 = .noResult) := by
  obtain ⟨evs0, fr0⟩ := r
  unfold fnHandlerStage at h
  by_cases hfn : cb.fnHandler = true
  · simp only [hfn, if_true] at h
    cases hfc : getField payload (strL "function_call") with
    | none => simp [hfc] at h
    | some fc =>
      simp only [hfc] at h
      cases harg : getField fc (strL "arguments") with
      | none => simp [harg] at h
      | some av =>
        simp only [harg] at h
        cases av with
        | jstr argsS =>
          cases hjp : jsonParse argsS with
          | none => simp [hjp] at h
          | some w =>
            simp only [hjp] at h
            cases b <;> simp only [] at h <;> try cases h
            all_goals exact Or.inl ⟨hfn, by simp, rfl⟩
        | jnull => simp at h
        | jbool bb => simp at h
        | jnum n => simp at h
        | jarr a => simp at h
        | jobj o => simp at h
  · simp only [Bool.not_eq_true] at hfn
    simp only [hfn, Bool.false_eq_true, if_false] at h
    cases h
    exact Or.inr ⟨hfn, rfl⟩

/-- The handler phase maps the scripted behavior through: when it succeeds,
the `functionResponse` equals the behavior, except that a thrown handler
leaves it undefined (the tool branch catches; a throwing function handler
never reaches `.ok`). -/
theorem flushHandlerPhase_ok_fr {cb : CbSet} {payload : JSONValue}
    {b : HandlerBehavior} {evs : List Event} {fr : HandlerBehavior}
    (hset : (cb.fnHandler || cb.toolHandler) = true)
    (h : flushHandlerPhase cb payload b = .ok (evs, fr)) :
    fr = if b = .throws then .noResult else b := by
  unfold flushHandlerPhase at h
  cases hs : fnHandlerStage cb payload b with
  | error e => rw [hs] at h; cases h
  | ok r1 =>
    rw [hs] at h
    have hr1 := fnHandlerStage_ok_fr hs
    obtain ⟨evs1, fr1⟩ := r1
    simp only at h hr1
    by_cases ht : cb.toolHandler = true
    · simp only [ht, if_true] at h
      cases htc : getField payload (strL "tool_calls") with
      | none => simp [htc] at h
      | some tv =>
        simp only [htc] at h
        cases tv with
        | jarr elems =>
          by_cases hwf : (jarrToList elems).all wellFormedTool = true
          · simp only [hwf, if_true] at h
            cases b <;> simp only [] at h <;> cases h <;>
              first
                | rfl
                | (rcases hr1 with ⟨-, hb, hr⟩ | ⟨-, hr⟩ <;> simp [hr] <;>
                    simp at hb)
          · simp only [Bool.not_eq_true] at hwf
            simp [hwf] at h
        | jnull => simp at h
        | jbool bb => simp at h
        | jnum n => simp at h
        | jstr s2 => simp at h
        | jobj o => simp at h
    · simp only [Bool.not_eq_true] at ht
      simp only [ht, Bool.false_eq_true, if_false] at h
      cases h
      rcases hr1 with ⟨-, hb, hr⟩ | ⟨hfn, hr⟩
      · rw [hr]; simp [hb]
      · rw [hfn, ht] at hset
        cases hset

theorem fctFlush_recurse_none (cb : CbSet) (st : FCTState) (b : HandlerBehavior)
    (payload : JSONValue) (evs : List Event)
    (h : (!st.isFirstChunk && st.isFunctionStreamingIn &&
      (cb.fnHandler || cb.toolHandler)) = true)
    (hp : jsonParse st.aggregatedResponse = some payload)
    (hph : flushHandlerPhase cb payload b = .ok (evs, .nextResponse)) :
    fctFlush cb st b none = ([], [], none) := by
  unfold fctFlush
  simp [h, hp, hph]

theorem finallyEvents_startCount (onFinalPresent : Bool) (agg : List Char) :
    (finallyEvents onFinalPresent agg).countP isStartEv = 0 := by
  unfold finallyEvents
  split <;> simp [isStartEv]

theorem fctFlush_startCount (cb : CbSet) (st : FCTState) (b : HandlerBehavior)
    (innerOpt : Option RunResult)
    (hinner : ∀ r, innerOpt = some r → r.trace.countP isStartEv = 0) :
    (fctFlush cb st b innerOpt).2.1.countP isStartEv = 0 := by
  by_cases hentry : (!st.isFirstChunk && st.isFunctionStreamingIn &&
      (cb.fnHandler || cb.toolHandler)) = true
  · cases hp : jsonParse st.aggregatedResponse with
    | none =>
      rw [fctFlush_parseFail cb st b innerOpt hentry hp]
      exact finallyEvents_startCount _ _
    | some payload =>
      cases hph : flushHandlerPhase cb payload b with
      | error e =>
        rw [fctFlush_phaseFail cb st b innerOpt payload e hentry hp hph]
        exact finallyEvents_startCount _ _
      | ok r =>
        obtain ⟨evs, fr⟩ := r
        have hevs := (flushHandlerPhase_events hph).2.2.1
        cases fr with
        | noResult =>
          rw [fctFlush_terminal cb st b innerOpt payload evs _ hentry hp hph
            (Or.inl rfl)]
          simp [List.countP_append, hevs, finallyEvents_startCount, isStartEv]
        | throws =>
          rw [fctFlush_terminal cb st b innerOpt payload evs _ hentry hp hph
            (Or.inr (Or.inl rfl))]
          simp [List.countP_append, hevs, finallyEvents_startCount, isStartEv]
        | retStr s =>
          by_cases hs : s = []
          · rw [fctFlush_terminal cb st b innerOpt payload evs _ hentry hp hph
              (Or.inr (Or.inr ⟨s, rfl, hs⟩))]
            simp [List.countP_append, hevs, finallyEvents_startCount, isStartEv]
          · rw [fctFlush_strOut cb st b innerOpt payload evs s hentry hp hph hs]
            simp [List.countP_append, hevs, finallyEvents_startCount, isStartEv]
        | nextResponse =>
          cases innerOpt with
          | none =>
            rw [fctFlush_recurse_none cb st b payload evs hentry hp hph]
            rfl
          | some inner =>
            rw [fctFlush_recurse cb st b inner payload evs hentry hp hph]
            simp [List.countP_append, hevs, hinner inner rfl]
  · rw [fctFlush_noCall cb st b innerOpt (by simpa using hentry)]
    exact finallyEvents_startCount _ _

theorem runLeg_startCount (cb : CbSet) (msgs : List ExtractedMsg)
    (b : HandlerBehavior) (innerOpt : Option RunResult)
    (hset : (cb.fnHandler || cb.toolHandler) = true)
    (hinner : ∀ r, innerOpt = some r → r.trace.countP isStartEv = 0) :
    (runLeg cb msgs b innerOpt).trace.countP isStartEv =
      if cb.onStart then 1 else 0 := by
  unfold runLeg
  simp only [hset, if_true]
  simp only [List.countP_append]
  rw [runCallbacks_startCount { cb with onFinal := false } msgs]
  rw [fctFlush_startCount cb _ b innerOpt hinner]
  simp

theorem runOpenAIStream_startCount (cb : CbSet) (src : Src)
    (hset : (cb.fnHandler || cb.toolHandler) = true) :
    (runOpenAIStream cb src).trace.countP isStartEv =
      if cb.onStart then 1 else 0 := by
  induction src generalizing cb with
  | leg msgs e =>
    exact runLeg_startCount cb msgs _ none hset (fun r hr => by cases hr)
  | legCont msgs next ih =>
    show (runLeg cb msgs .nextResponse
      (some (runOpenAIStream { cb with onStart := false } next))).trace.countP
        isStartEv = _
    apply runLeg_startCount cb msgs _ _ hset
    intro r hr
    cases hr
    simpa using ih { cb with onStart := false } hset

theorem finalPayloads_append (a b : List Event) :
    finalPayloads (a ++ b) = finalPayloads a ++ finalPayloads b := by
  simp [finalPayloads]

theorem completionPayloads_append (a b : List Event) :
    completionPayloads (a ++ b) = completionPayloads a ++ completionPayloads b := by
  simp [completionPayloads]

theorem finallyEvents_finalPayloads (p : Bool) (agg : List Char) :
    finalPayloads (finallyEvents p agg) =
      if p && !agg.isEmpty then [agg] else [] := by
  unfold finallyEvents
  split <;> rename_i hcond <;> simp [hcond, finalPayloads]

theorem finallyEvents_completionPayloads (p : Bool) (agg : List Char) :
    completionPayloads (finallyEvents p agg) = [] := by
  unfold finallyEvents
  split <;> simp [completionPayloads]

/-- The state the flush sees for a leg with messages `msgs`. -/
def legFlushState (cb : CbSet) (msgs : List ExtractedMsg) : FCTState :=
  (fctTransformAll cb.complex initialFCTState (msgs.map msgContent)).1

theorem legFlushState_aggFinal (cb : CbSet) (msgs : List ExtractedMsg) :
    (legFlushState cb msgs).aggregatedFinal = legConcat msgs := by
  unfold legFlushState
  rw [fctTransformAll_aggFinal]
  rfl

theorem runLeg_trace (cb : CbSet) (msgs : List ExtractedMsg)
    (b : HandlerBehavior) (innerOpt : Option RunResult)
    (hset : (cb.fnHandler || cb.toolHandler) = true) :
    (runLeg cb msgs b innerOpt).trace =
      (runCallbacksTransformer { cb with onFinal := false } msgs).2.1 ++
      (fctFlush cb (legFlushState cb msgs) b innerOpt).2.1 := by
  unfold runLeg
  simp only [hset, if_true]
  rw [show (runCallbacksTransformer { cb with onFinal := false } msgs).1 =
    msgs.map msgContent from runCallbacks_outs _ _]
  rfl

theorem legOutcomeF_eq (cb : CbSet) (msgs : List ExtractedMsg)
    (b : HandlerBehavior) :
    legOutcomeF cb msgs b =
      (if !(legFlushState cb msgs).isFirstChunk &&
          (legFlushState cb msgs).isFunctionStreamingIn &&
          (cb.fnHandler || cb.toolHandler) then
        match jsonParse (legFlushState cb msgs).aggregatedResponse with
        | none => .failed .parseError
        | some payload =>
          match flushHandlerPhase cb payload b with
          | .error e => .failed e
          | .ok (_, fr) =>
            match fr with
            | .retStr s => if s.isEmpty then .terminal else .strOut s
            | .nextResponse => .recurse
            | _ => .terminal
      else .noCall) := by
  rfl

/-- What `onFinal` receives from the flush of one leg, as a function of the
leg outcome: the handler-produced string in the string-output branch, the
inner run's final payloads after a recursion, and otherwise the leg's own
aggregate (subject to the non-empty guard). -/
def flushFinalMirror (cb : CbSet) (msgs : List ExtractedMsg)
    (b : HandlerBehavior) (innerFinal : List (List Char)) : List (List Char) :=
  match legOutcomeF cb msgs b with
  | .strOut s => if cb.onFinal && !s.isEmpty then [s] else []
  | .recurse => innerFinal
  | _ => if cb.onFinal && !(legConcat msgs).isEmpty then [legConcat msgs] else []

/-- Final payloads of a pre-computed inner run, `[]` when there is none. -/
def innerFinalOf : Option RunResult → List (List Char)
  | some r => finalPayloads r.trace
  | none => []

/-- Final-hook behavior of the flush of one leg, expressed through the
branch mirror `legOutcomeF`. -/
theorem fctFlush_finalPayloads (cb : CbSet) (msgs : List ExtractedMsg)
    (b : HandlerBehavior) (innerOpt : Option RunResult)
    (hrecurse : legOutcomeF cb msgs b = .recurse → ∃ r, innerOpt = some r) :
    finalPayloads (fctFlush cb (legFlushState cb msgs) b innerOpt).2.1 =
      flushFinalMirror cb msgs b (innerFinalOf innerOpt) := by
  by_cases hentry : (!(legFlushState cb msgs).isFirstChunk &&
      (legFlushState cb msgs).isFunctionStreamingIn &&
      (cb.fnHandler || cb.toolHandler)) = true
  · cases hp : jsonParse (legFlushState cb msgs).aggregatedResponse with
    | none =>
      have hout : legOutcomeF cb msgs b = .failed .parseError := by
        rw [legOutcomeF_eq, if_pos hentry, hp]
      rw [fctFlush_parseFail _ _ _ _ hentry hp]
      simp [flushFinalMirror, hout, finallyEvents_finalPayloads,
        legFlushState_aggFinal]
    | some payload =>
      cases hph : flushHandlerPhase cb payload b with
      | error e =>
        have hout : legOutcomeF cb msgs b = .failed e := by
          rw [legOutcomeF_eq, if_pos hentry]
          simp only [hp, hph]
        rw [fctFlush_phaseFail _ _ _ _ payload e hentry hp hph]
        simp [flushFinalMirror, hout, finallyEvents_finalPayloads,
          legFlushState_aggFinal]
      | ok r =>
        obtain ⟨evs, fr⟩ := r
        have hevs := (flushHandlerPhase_events hph).1
        cases fr with
        | noResult =>
          have hout : legOutcomeF cb msgs b = .terminal := by
            rw [legOutcomeF_eq, if_pos hentry]
            simp only [hp, hph]
          rw [fctFlush_terminal _ _ _ _ payload evs _ hentry hp hph (Or.inl rfl)]
          simp [flushFinalMirror, hout, finalPayloads_append, hevs,
            finallyEvents_finalPayloads, legFlushState_aggFinal]
        | throws =>
          have hout : legOutcomeF cb msgs b = .terminal := by
            rw [legOutcomeF_eq, if_pos hentry]
            simp only [hp, hph]
          rw [fctFlush_terminal _ _ _ _ payload evs _ hentry hp hph
            (Or.inr (Or.inl rfl))]
          simp [flushFinalMirror, hout, finalPayloads_append, hevs,
            finallyEvents_finalPayloads, legFlushState_aggFinal]
        | retStr s =>
          by_cases hs : s = []
          · have hout : legOutcomeF cb msgs b = .terminal := by
              rw [legOutcomeF_eq, if_pos hentry]
              simp [hp, hph, hs]
            rw [fctFlush_terminal _ _ _ _ payload evs _ hentry hp hph
              (Or.inr (Or.inr ⟨s, rfl, hs⟩))]
            simp [flushFinalMirror, hout, finalPayloads_append, hevs,
              finallyEvents_finalPayloads, legFlushState_aggFinal]
          · have hout : legOutcomeF cb msgs b = .strOut s := by
              rw [legOutcomeF_eq, if_pos hentry]
              simp [hp, hph, hs]
            rw [fctFlush_strOut _ _ _ _ payload evs s hentry hp hph hs]
            simp [flushFinalMirror, hout, finalPayloads_append, hevs,
              finallyEvents_finalPayloads]
        | nextResponse =>
          have hout : legOutcomeF cb msgs b = .recurse := by
            rw [legOutcomeF_eq, if_pos hentry]
            simp only [hp, hph]
          obtain ⟨inner, hi⟩ := hrecurse hout
          subst hi
          rw [fctFlush_recurse _ _ _ inner payload evs hentry hp hph]
          simp [flushFinalMirror, innerFinalOf, hout, finalPayloads_append,
            hevs]
  · have hout : legOutcomeF cb msgs b = .noCall := by
      rw [legOutcomeF_eq, if_neg hentry]
    rw [fctFlush_noCall _ _ _ _ (by simpa using hentry)]
    cases innerOpt <;>
      simp [flushFinalMirror, innerFinalOf, hout, finallyEvents_finalPayloads,
        legFlushState_aggFinal]

theorem legEndBehavior_ne_next (e : LegEnd) :
    legEndBehavior e ≠ .nextResponse := by
  cases e <;> simp [legEndBehavior]

theorem legOutcomeF_ne_recurse (cb : CbSet) (msgs : List ExtractedMsg)
    (b : HandlerBehavior)
    (hset : (cb.fnHandler || cb.toolHandler) = true)
    (hb : b ≠ .nextResponse) :
    legOutcomeF cb msgs b ≠ .recurse := by
  intro h
  rw [legOutcomeF_eq] at h
  by_cases hentry : (!(legFlushState cb msgs).isFirstChunk &&
      (legFlushState cb msgs).isFunctionStreamingIn &&
      (cb.fnHandler || cb.toolHandler)) = true
  · rw [if_pos hentry] at h
    cases hp : jsonParse (legFlushState cb msgs).aggregatedResponse with
    | none => simp [hp] at h
    | some payload =>
      simp only [hp] at h
      cases hph : flushHandlerPhase cb payload b with
      | error e => simp [hph] at h
      | ok r =>
        obtain ⟨evs, fr⟩ := r
        have hfr := flushHandlerPhase_ok_fr hset hph
        simp only [hph] at h
        cases fr with
        | noResult => simp at h
        | throws => simp at h
        | retStr s =>
          by_cases hs : s.isEmpty = true <;> simp [hs] at h
        | nextResponse =>
          by_cases hbt : b = .throws
          · rw [if_pos hbt] at hfr; cases hfr
          · rw [if_neg hbt] at hfr; exact hb hfr.symm
  · rw [if_neg hentry] at h
    cases h

theorem runOpenAIStream_finalPayloads (cb : CbSet) (src : Src)
    (hset : (cb.fnHandler || cb.toolHandler) = true) :
    finalPayloads (runOpenAIStream cb src).trace =
      if cb.onFinal && !(finalTextF cb src).isEmpty
      then [finalTextF cb src] else [] := by
  induction src generalizing cb with
  | leg msgs e =>
    show finalPayloads (runLeg cb msgs (legEndBehavior e) none).trace = _
    rw [runLeg_trace _ _ _ _ hset, finalPayloads_append,
      runCallbacks_finalPayloads _ _ rfl,
      fctFlush_finalPayloads cb msgs _ none
        (fun h => absurd h (legOutcomeF_ne_recurse cb msgs _ hset
          (legEndBehavior_ne_next e)))]
    unfold flushFinalMirror
    cases hout : legOutcomeF cb msgs (legEndBehavior e) with
    | recurse =>
      exact absurd hout (legOutcomeF_ne_recurse cb msgs _ hset
        (legEndBehavior_ne_next e))
    | noCall => simp [hout, finalTextF]
    | failed e2 => simp [hout, finalTextF]
    | terminal => simp [hout, finalTextF]
    | strOut s => simp [hout, finalTextF]
  | legCont msgs next ih =>
    show finalPayloads (runLeg cb msgs .nextResponse
      (some (runOpenAIStream { cb with onStart := false } next))).trace = _
    rw [runLeg_trace _ _ _ _ hset, finalPayloads_append,
      runCallbacks_finalPayloads _ _ rfl,
      fctFlush_finalPayloads cb msgs _ _ (fun _ => ⟨_, rfl⟩)]
    unfold flushFinalMirror
    cases hout : legOutcomeF cb msgs .nextResponse with
    | recurse =>
      simp only [hout, innerFinalOf]
      rw [ih { cb with onStart := false } hset]
      simp [finalTextF, hout]
    | noCall => simp [hout, finalTextF]
    | failed e2 => simp [hout, finalTextF]
    | terminal => simp [hout, finalTextF]
    | strOut s => simp [hout, finalTextF]

/-- Completion payloads of a pre-computed inner run, `[]` when absent. -/
def innerCompOf : Option RunResult → List (List Char)
  | some r => completionPayloads r.trace
  | none => []

/-- The flush itself fires `onCompletion` only through an inner recursion:
its own events carry no completion payloads. -/
theorem fctFlush_completionPayloads (cb : CbSet) (msgs : List ExtractedMsg)
    (b : HandlerBehavior) (innerOpt : Option RunResult)
    (hrecurse : legOutcomeF cb msgs b = .recurse → ∃ r, innerOpt = some r) :
    completionPayloads (fctFlush cb (legFlushState cb msgs) b innerOpt).2.1 =
      (if legOutcomeF cb msgs b = .recurse then innerCompOf innerOpt
       else []) := by
  by_cases hentry : (!(legFlushState cb msgs).isFirstChunk &&
      (legFlushState cb msgs).isFunctionStreamingIn &&
      (cb.fnHandler || cb.toolHandler)) = true
  · cases hp : jsonParse (legFlushState cb msgs).aggregatedResponse with
    | none =>
      have hout : legOutcomeF cb msgs b = .failed .parseError := by
        rw [legOutcomeF_eq, if_pos hentry, hp]
      rw [fctFlush_parseFail _ _ _ _ hentry hp]
      simp [hout, finallyEvents_completionPayloads]
    | some payload =>
      cases hph : flushHandlerPhase cb payload b with
      | error e =>
        have hout : legOutcomeF cb msgs b = .failed e := by
          rw [legOutcomeF_eq, if_pos hentry]
          simp only [hp, hph]
        rw [fctFlush_phaseFail _ _ _ _ payload e hentry hp hph]
        simp [hout, finallyEvents_completionPayloads]
      | ok r =>
        obtain ⟨evs, fr⟩ := r
        have hevs := (flushHandlerPhase_events hph).2.1
        cases fr with
        | noResult =>
          have hout : legOutcomeF cb msgs b = .terminal := by
            rw [legOutcomeF_eq, if_pos hentry]
            simp only [hp, hph]
          rw [fctFlush_terminal _ _ _ _ payload evs _ hentry hp hph (Or.inl rfl)]
          simp [hout, completionPayloads_append, hevs,
            finallyEvents_completionPayloads]
        | throws =>
          have hout : legOutcomeF cb msgs b = .terminal := by
            rw [legOutcomeF_eq, if_pos hentry]
            simp only [hp, hph]
          rw [fctFlush_terminal _ _ _ _ payload evs _ hentry hp hph
            (Or.inr (Or.inl rfl))]
          simp [hout, completionPayloads_append, hevs,
            finallyEvents_completionPayloads]
        | retStr s =>
          by_cases hs : s = []
          · have hout : legOutcomeF cb msgs b = .terminal := by
              rw [legOutcomeF_eq, if_pos hentry]
              simp [hp, hph, hs]
            rw [fctFlush_terminal _ _ _ _ payload evs _ hentry hp hph
              (Or.inr (Or.inr ⟨s, rfl, hs⟩))]
            simp [hout, completionPayloads_append, hevs,
              finallyEvents_completionPayloads]
          · have hout : legOutcomeF cb msgs b = .strOut s := by
              rw [legOutcomeF_eq, if_pos hentry]
              simp [hp, hph, hs]
            rw [fctFlush_strOut _ _ _ _ payload evs s hentry hp hph hs]
            simp [hout, completionPayloads_append, hevs,
              finallyEvents_completionPayloads]
        | nextResponse =>
          have hout : legOutcomeF cb msgs b = .recurse := by
            rw [legOutcomeF_eq, if_pos hentry]
            simp only [hp, hph]
          obtain ⟨inner, hi⟩ := hrecurse hout
          subst hi
          rw [fctFlush_recurse _ _ _ inner payload evs hentry hp hph]
          simp [hout, innerCompOf, completionPayloads_append, hevs]
  · have hout : legOutcomeF cb msgs b = .noCall := by
      rw [legOutcomeF_eq, if_neg hentry]
    rw [fctFlush_noCall _ _ _ _ (by simpa using hentry)]
    simp [hout, finallyEvents_completionPayloads]

theorem runOpenAIStream_completionPayloads (cb : CbSet) (src : Src)
    (hset : (cb.fnHandler || cb.toolHandler) = true) :
    completionPayloads (runOpenAIStream cb src).trace =
      if cb.onCompletion then legAggsF cb src else [] := by
  induction src generalizing cb with
  | leg msgs e =>
    show completionPayloads (runLeg cb msgs (legEndBehavior e) none).trace = _
    rw [runLeg_trace _ _ _ _ hset, completionPayloads_append,
      runCallbacks_completionPayloads,
      fctFlush_completionPayloads cb msgs _ none
        (fun h => absurd h (legOutcomeF_ne_recurse cb msgs _ hset
          (legEndBehavior_ne_next e)))]
    rw [if_neg (legOutcomeF_ne_recurse cb msgs _ hset
      (legEndBehavior_ne_next e))]
    cases hC : cb.onCompletion <;> simp [hC, legAggsF]
  | legCont msgs next ih =>
    show completionPayloads (runLeg cb msgs .nextResponse
      (some (runOpenAIStream { cb with onStart := false } next))).trace = _
    rw [runLeg_trace _ _ _ _ hset, completionPayloads_append,
      runCallbacks_completionPayloads,
      fctFlush_completionPayloads cb msgs _ _ (fun _ => ⟨_, rfl⟩)]
    by_cases hout : legOutcomeF cb msgs .nextResponse = .recurse
    · rw [if_pos hout]
      simp only [innerCompOf]
      rw [ih { cb with onStart := false } hset]
      cases hC : cb.onCompletion <;> simp [hC, legAggsF, hout]
    · rw [if_neg hout]
      cases hC : cb.onCompletion <;> simp [hC, legAggsF, hout]

theorem legAggsF_length (cb : CbSet) (src : Src) :
    (legAggsF cb src).length = contCountF cb src + 1 := by
  induction src generalizing cb with
  | leg msgs e => simp [legAggsF, contCountF]
  | legCont msgs next ih =>
    by_cases hout : legOutcomeF cb msgs .nextResponse = .recurse <;>
      simp [legAggsF, contCountF, hout, ih]

/-- `runLeg` with a handler configured, written as its three components. -/
theorem runLeg_eq (cb : CbSet) (msgs : List ExtractedMsg)
    (b : HandlerBehavior) (innerOpt : Option RunResult)
    (hset : (cb.fnHandler || cb.toolHandler) = true) :
    runLeg cb msgs b innerOpt =
      { out := (fctTransformAll cb.complex initialFCTState
          (msgs.map msgContent)).2 ++
          (fctFlush cb (legFlushState cb msgs) b innerOpt).1,
        trace := (runCallbacksTransformer { cb with onFinal := false }
          msgs).2.1 ++
          (fctFlush cb (legFlushState cb msgs) b innerOpt).2.1,
        err := (fctFlush cb (legFlushState cb msgs) b innerOpt).2.2 } := by
  unfold runLeg
  simp only [hset, if_true]
  rw [show (runCallbacksTransformer { cb with onFinal := false } msgs).1 =
    msgs.map msgContent from runCallbacks_outs _ _]
  rfl

/-- The per-message transform never emits call frames: its outputs are text
forwards only. -/
theorem fctTransformAll_callFrames (complex : Bool) (st : FCTState)
    (msgs : List (List Char)) :
    callFrameCount (fctTransformAll complex st msgs).2 = 0 := by
  induction msgs generalizing st with
  | nil => rfl
  | cons m rest ih =>
    show callFrameCount ((fctTransformStep complex st m).2 ++ _) = 0
    simp only [callFrameCount, List.countP_append]
    rw [show List.countP _ (fctTransformAll complex
      (fctTransformStep complex st m).1 rest).2 =
      callFrameCount (fctTransformAll complex
        (fctTransformStep complex st m).1 rest).2 from rfl, ih]
    unfold fctTransformStep
    dsimp only
    split
    · rfl
    · split
      · cases complex <;> simp [textForward, List.countP_cons]
      · rfl

/-! Model of the non-2xx branch of `AIStream`
(src/packages/core/streams/ai-stream.ts lines 318-337, the later of the two
merged revisions).  A response body is a sequence of already-decoded text
chunks; `none` models a response with no body.  The returned stream's
`start` issues at most one controller action. -/

inductive CtrlAction where
  | errorAct (msg : List Char) : CtrlAction
  | closeAct : CtrlAction
deriving DecidableEq

/-- `start` of the stream returned for a non-ok response that has a body:
one `reader.read()`; if it is not done, error the controller with the
decoded first chunk; otherwise do nothing (lines 320-328). -/
def nonOkBodyStart (chunks : List (List Char)) : List CtrlAction :=
  match chunks with
  | [] => []
  | c :: _ => [.errorAct (strL "Response error: " ++ c)]

/-- `start` of the stream returned for a non-ok response without a body
(lines 330-334). -/
def nonOkNoBodyStart : List CtrlAction :=
  [.errorAct (strL "Response error: No response body")]

/-- The controller actions `AIStream` performs for a non-ok response. -/
def aiStreamNonOk (body : Option (List (List Char))) : List CtrlAction :=
  match body with
  | some chunks => nonOkBodyStart chunks
  | none => nonOkNoBodyStart

/-- The error text the single error event carries, when one is emitted. -/
def aiStreamErrMsg : Option (List (List Char)) → List Char
  | none => strL "Response error: No response body"
  | some chunks => strL "Response error: " ++ chunks.headD []

/-! Concrete fixtures used by the lifecycle claims. -/

/-- A complete function call streamed as a single extracted fragment. -/
def fnCallJson : List Char :=
  strL "\x7b\"function_call\":\x7b\"name\":\"f\",\"arguments\":\"\x7b\x7d\"\x7d\x7d"

def fnCallMsg : ExtractedMsg := .structured fnCallJson

def fnCallPayload : JSONValue :=
  jobj (ocons (strL "function_call")
    (jobj (ocons (strL "name") (jstr (strL "f"))
      (ocons (strL "arguments") (jstr (strL "\x7b\x7d")) onil))) onil)

/-- A complete tool call streamed as a single extracted fragment. -/
def toolCallJson : List Char :=
  strL "\x7b\"tool_calls\":[\x7b\"id\":\"1\",\"function\":\x7b\"name\":\"f\",\"arguments\":\"\x7b\x7d\"\x7d\x7d]\x7d"

def toolCallMsg : ExtractedMsg := .structured toolCallJson

def toolElems : JArr :=
  acons (jobj (ocons (strL "id") (jstr (strL "1"))
    (ocons (strL "function")
      (jobj (ocons (strL "name") (jstr (strL "f"))
        (ocons (strL "arguments") (jstr (strL "\x7b\x7d")) onil))) onil))) anil

def toolCallPayload : JSONValue :=
  jobj (ocons (strL "tool_calls") (jarr toolElems) onil)

/-- All hooks set, function handler configured, complex mode. -/
def cbMain : CbSet :=
  { onStart := true, onToken := true, onText := true, onCompletion := true,
    onFinal := true, fnHandler := true, toolHandler := false, complex := true }

/-- All hooks set, tool handler configured, complex mode. -/
def cbTool : CbSet :=
  { onStart := true, onToken := true, onText := true, onCompletion := true,
    onFinal := true, fnHandler := false, toolHandler := true, complex := true }

/-- A round with one recursive continuation: a function-call leg whose
handler returns a new response streaming one plain message. -/
def srcRec : Src := .legCont [fnCallMsg] (.leg [.plain (strL "ok")] .noResult)

/-- C1: counterexample.  With a function handler configured and every hook
supplied, a round whose final leg accumulates no text never invokes
`onFinal`, even though `onStart` fired: the exactly-once part of the claim
fails for the final hook. -/
theorem c1_lifecycle_cex :
    finalPayloads (runOpenAIStream cbMain (.leg [] .noResult)).trace = [] ∧
    (runOpenAIStream cbMain
      (.leg [] .noResult)).trace.countP isStartEv = 1 := by decide

/-- C1 (amended): with a handler configured, `onStart` fires exactly once
across all recursive continuations, and `onFinal` fires at most once, on the
last executed leg, with the end-of-round text `finalTextF` (the last leg's
aggregate or the string the handler returned); it is skipped entirely when
that text is empty. -/
theorem c1_lifecycle_amended (cb : CbSet) (src : Src)
    (hset : (cb.fnHandler || cb.toolHandler) = true)
    (hS : cb.onStart = true) (hF : cb.onFinal = true) :
    (runOpenAIStream cb src).trace.countP isStartEv = 1 ∧
    finalPayloads (runOpenAIStream cb src).trace =
      (if (finalTextF cb src).isEmpty then []
       else [finalTextF cb src]) := by
  constructor
  · rw [runOpenAIStream_startCount cb src hset]
    simp [hS]
  · rw [runOpenAIStream_finalPayloads cb src hset]
    cases hE : (finalTextF cb src).isEmpty <;> simp [hS, hF, hE]

/-- C1: witness for the amended theorem on a round with one recursive
continuation. -/
theorem c1_lifecycle_witness :
    ((cbMain.fnHandler || cbMain.toolHandler) = true) ∧
    (cbMain.onStart = true) ∧ (cbMain.onFinal = true) ∧
    ((runOpenAIStream cbMain srcRec).trace.countP isStartEv = 1 ∧
     finalPayloads (runOpenAIStream cbMain srcRec).trace =
       (if (finalTextF cbMain srcRec).isEmpty then []
        else [finalTextF cbMain srcRec])) :=
  ⟨by decide, by decide, by decide,
    c1_lifecycle_amended cbMain srcRec (by decide) (by decide) (by decide)⟩

/-- C10: `onCompletion` is retained by the callbacks handed to every inner
pipeline instance, so with a handler configured it fires once per executed
leg - `contCountF + 1` times in total - each time with that leg's aggregated
text. -/
theorem c10_completion_per_leg (cb : CbSet) (src : Src)
    (hset : (cb.fnHandler || cb.toolHandler) = true)
    (hC : cb.onCompletion = true) :
    completionPayloads (runOpenAIStream cb src).trace = legAggsF cb src ∧
    (legAggsF cb src).length = contCountF cb src + 1 := by
  refine ⟨?_, legAggsF_length cb src⟩
  rw [runOpenAIStream_completionPayloads cb src hset]
  simp [hC]

/-- C10: witness on a round with one recursive continuation (two legs, two
completion payloads). -/
theorem c10_completion_witness :
    ((cbMain.fnHandler || cbMain.toolHandler) = true) ∧
    (cbMain.onCompletion = true) ∧
    contCountF cbMain srcRec = 1 ∧
    (completionPayloads (runOpenAIStream cbMain srcRec).trace =
       legAggsF cbMain srcRec ∧
     (legAggsF cbMain srcRec).length = contCountF cbMain srcRec + 1) :=
  ⟨by decide, by decide, by decide,
    c10_completion_per_leg cbMain srcRec (by decide) (by decide)⟩

/-- C6: counterexample.  An exception thrown by the *function* handler is not
caught: the stream errors with the handler's exception and no terminal frame
is emitted, so the universally quantified claim over function/tool handlers
fails. -/
theorem c6_handler_error_cex :
    (runOpenAIStream cbMain (.leg [fnCallMsg] .throws)).err =
      some .handlerThrown ∧
    callFrameCount
      (runOpenAIStream cbMain (.leg [fnCallMsg] .throws)).out = 0 := by decide

/-- C6 (amended): only the *tool* handler's exceptions are caught and
logged.  When a tool call completes with a well-formed `tool_calls` payload
and the configured tool handler throws, the error is logged, the stream does
not error, and the call is emitted as the single terminal frame exactly as
if the handler had returned no result. -/
theorem c6_handler_error_amended (cb : CbSet) (msgs : List ExtractedMsg)
    (payload : JSONValue) (elems : JArr)
    (htool : cb.toolHandler = true) (hfn : cb.fnHandler = false)
    (hentry : (!(legFlushState cb msgs).isFirstChunk &&
      (legFlushState cb msgs).isFunctionStreamingIn &&
      (cb.fnHandler || cb.toolHandler)) = true)
    (hp : jsonParse (legFlushState cb msgs).aggregatedResponse = some payload)
    (htc : getField payload (strL "tool_calls") = some (jarr elems))
    (hwf : (jarrToList elems).all wellFormedTool = true) :
    (runOpenAIStream cb (.leg msgs .throws)).err = none ∧
    Event.toolHandlerErrorLogged ∈
      (runOpenAIStream cb (.leg msgs .throws)).trace ∧
    (runOpenAIStream cb (.leg msgs .throws)).out =
      (fctTransformAll cb.complex initialFCTState (msgs.map msgContent)).2 ++
        [terminalFrame cb.complex payload
          (legFlushState cb msgs).aggregatedResponse] := by
  have hset : (cb.fnHandler || cb.toolHandler) = true := by simp [htool]
  have hph : flushHandlerPhase cb payload .throws =
      .ok ([Event.toolHandlerInvoked, Event.toolHandlerErrorLogged],
        .noResult) := by
    unfold flushHandlerPhase fnHandlerStage
    simp [hfn, htool, htc, hwf]
  have hrun : runOpenAIStream cb (.leg msgs .throws) =
      runLeg cb msgs (legEndBehavior .throws) none := rfl
  rw [hrun, runLeg_eq cb msgs _ none hset]
  simp only [legEndBehavior]
  rw [fctFlush_terminal cb _ _ none payload _ _ hentry hp hph (Or.inl rfl)]
  refine ⟨rfl, ?_, rfl⟩
  simp [List.mem_append]

/-- C6: witness for the amended theorem - a throwing tool handler on a
well-formed completed tool call. -/
theorem c6_handler_error_witness :
    (cbTool.toolHandler = true) ∧ (cbTool.fnHandler = false) ∧
    ((runOpenAIStream cbTool (.leg [toolCallMsg] .throws)).err = none ∧
     Event.toolHandlerErrorLogged ∈
       (runOpenAIStream cbTool (.leg [toolCallMsg] .throws)).trace ∧
     (runOpenAIStream cbTool (.leg [toolCallMsg] .throws)).out =
       (fctTransformAll cbTool.complex initialFCTState
         ([toolCallMsg].map msgContent)).2 ++
         [terminalFrame cbTool.complex toolCallPayload
           (legFlushState cbTool [toolCallMsg]).aggregatedResponse]) :=
  ⟨rfl, rfl,
    c6_handler_error_amended cbTool [toolCallMsg] toolCallPayload toolElems
      rfl rfl (by decide) (by decide) (by decide) (by decide)⟩

/-- C7: counterexample.  A non-2xx response whose body yields no chunk
produces no controller action at all - neither an error event nor
termination - and a multi-chunk body produces an error event carrying only
the first decoded chunk, not the full body text. -/
theorem c7_upstream_error_cex :
    aiStreamNonOk (some []) = [] ∧
    aiStreamNonOk (some [strL "ab", strL "cd"]) =
      [.errorAct (strL "Response error: ab")] ∧
    strL "Response error: ab" ≠ strL "Response error: abcd" := by decide

/-- C7 (amended): for a non-2xx response whose body is absent or yields at
least one chunk on its first read, the returned stream performs exactly one
controller action: an error carrying `Response error: ` followed by the
first decoded body chunk, or the generic no-body message.  (A present but
chunkless body instead yields no action; and only the first chunk is ever
decoded.) -/
theorem c7_upstream_error_amended (body : Option (List (List Char)))
    (hne : body ≠ some []) :
    aiStreamNonOk body = [.errorAct (aiStreamErrMsg body)] := by
  cases body with
  | none => rfl
  | some chunks =>
    cases chunks with
    | nil => exact absurd rfl hne
    | cons c rest => rfl

/-- C7: witness for the amended theorem on a one-chunk body. -/
theorem c7_upstream_error_witness :
    ((some [strL "oops"] : Option (List (List Char))) ≠ some []) ∧
    aiStreamNonOk (some [strL "oops"]) =
      [.errorAct (aiStreamErrMsg (some [strL "oops"]))] :=
  ⟨by decide, c7_upstream_error_amended (some [strL "oops"]) (by decide)⟩

theorem callFrameCount_append (a b : List OutItem) :
    callFrameCount (a ++ b) = callFrameCount a + callFrameCount b := by
  simp [callFrameCount]

theorem callFrameCount_terminal (payload : JSONValue) (agg : List Char) :
    callFrameCount [terminalFrame true payload agg] = 1 := by
  unfold terminalFrame callFrameCount
  cases htr : truthyJ (getField payload (strL "function_call")) <;>
    simp [htr, List.countP_cons]

/-- C8: counterexample.  A *function* call completes while only a *tool*
handler is configured - "no relevant handler" in the claim's terms - yet
instead of a terminal frame the flush raises a TypeError: the stream errors
and no call frame is emitted. -/
theorem c8_terminal_frame_cex :
    (runOpenAIStream cbTool (.leg [fnCallMsg] .noResult)).err =
      some .typeError ∧
    callFrameCount
      (runOpenAIStream cbTool (.leg [fnCallMsg] .noResult)).out = 0 := by
  decide

/-- C8 (amended): when a handler is configured, a call completes (the leg's
flush outcome is terminal: the configured matching handler returned no
result, an empty string, or was a throwing tool handler), and the stream is
multiplexed, the leg's output is the forwarded text parts followed by
exactly one terminal call frame carrying the re-parsed payload, the total
call-frame count is one, and the stream closes without error and without
recursion. -/
theorem c8_terminal_frame_amended (cb : CbSet) (msgs : List ExtractedMsg)
    (e : LegEnd) (payload : JSONValue)
    (hset : (cb.fnHandler || cb.toolHandler) = true)
    (hcx : cb.complex = true)
    (hentry : (!(legFlushState cb msgs).isFirstChunk &&
      (legFlushState cb msgs).isFunctionStreamingIn &&
      (cb.fnHandler || cb.toolHandler)) = true)
    (hp : jsonParse (legFlushState cb msgs).aggregatedResponse = some payload)
    (hout : legOutcomeF cb msgs (legEndBehavior e) = .terminal) :
    (runOpenAIStream cb (.leg msgs e)).out =
      (fctTransformAll cb.complex initialFCTState (msgs.map msgContent)).2 ++
        [terminalFrame cb.complex payload
          (legFlushState cb msgs).aggregatedResponse] ∧
    callFrameCount (runOpenAIStream cb (.leg msgs e)).out = 1 ∧
    (runOpenAIStream cb (.leg msgs e)).err = none := by
  have hrun : runOpenAIStream cb (.leg msgs e) =
      runLeg cb msgs (legEndBehavior e) none := rfl
  rw [legOutcomeF_eq, if_pos hentry] at hout
  simp only [hp] at hout
  cases hph : flushHandlerPhase cb payload (legEndBehavior e) with
  | error e2 => simp [hph] at hout
  | ok r =>
    obtain ⟨evs, fr⟩ := r
    simp only [hph] at hout
    have hfin : fctFlush cb (legFlushState cb msgs) (legEndBehavior e) none =
        ([terminalFrame cb.complex payload
          (legFlushState cb msgs).aggregatedResponse],
          evs ++ finallyEvents cb.onFinal
            (legFlushState cb msgs).aggregatedFinal, none) := by
      cases fr with
      | noResult =>
        exact fctFlush_terminal cb _ _ none payload evs _ hentry hp hph
          (Or.inl rfl)
      | throws =>
        exact fctFlush_terminal cb _ _ none payload evs _ hentry hp hph
          (Or.inr (Or.inl rfl))
      | retStr s =>
        by_cases hs : s = []
        · exact fctFlush_terminal cb _ _ none payload evs _ hentry hp hph
            (Or.inr (Or.inr ⟨s, rfl, hs⟩))
        · simp [List.isEmpty_iff, hs] at hout
      | nextResponse => simp at hout
    rw [hrun, runLeg_eq cb msgs _ none hset, hfin]
    refine ⟨rfl, ?_, rfl⟩
    show callFrameCount ((fctTransformAll cb.complex initialFCTState
      (msgs.map msgContent)).2 ++ [terminalFrame cb.complex payload
        (legFlushState cb msgs).aggregatedResponse]) = 1
    rw [callFrameCount_append, fctTransformAll_callFrames, hcx,
      callFrameCount_terminal]

/-- C8: witness for the amended theorem - a completed function call with a
function handler configured that returns no result. -/
theorem c8_terminal_frame_witness :
    ((cbMain.fnHandler || cbMain.toolHandler) = true) ∧
    (cbMain.complex = true) ∧
    ((runOpenAIStream cbMain (.leg [fnCallMsg] .noResult)).out =
       (fctTransformAll cbMain.complex initialFCTState
         ([fnCallMsg].map msgContent)).2 ++
         [terminalFrame cbMain.complex fnCallPayload
           (legFlushState cbMain [fnCallMsg]).aggregatedResponse] ∧
     callFrameCount
       (runOpenAIStream cbMain (.leg [fnCallMsg] .noResult)).out = 1 ∧
     (runOpenAIStream cbMain (.leg [fnCallMsg] .noResult)).err = none) :=
  ⟨rfl, rfl,
    c8_terminal_frame_amended cbMain [fnCallMsg] .noResult fnCallPayload
      rfl rfl (by decide) (by decide) (by decide)⟩

/-- C9: counterexample.  The only fragment of the leg belongs to an
in-progress call - the transformer forwards nothing downstream for it - yet
`onToken` is invoked with it: the hooks do not fire "only for fragments that
are forwarded". -/
theorem c9_forwarding_cex :
    tokenPayloads (runOpenAIStream cbMain (.leg [fnCallMsg] .noResult)).trace
      = [fnCallJson] ∧
    (fctTransformAll cbMain.complex initialFCTState
      ([fnCallMsg].map msgContent)).2 = [] := by decide

/-- C9 (amended): while a call is in progress the transformer forwards
nothing downstream and only appends the fragment to its buffers; but the
token/text hooks live upstream of it: `onToken` fires for *every* fragment,
in-call ones included, while `onText` fires exactly for the plain string
fragments. -/
theorem c9_forwarding_amended (complex : Bool) (st : FCTState)
    (m : List Char) (cb : CbSet) (msgs : List ExtractedMsg)
    (hin : st.isFunctionStreamingIn = true)
    (hfc : st.isFirstChunk = false) :
    (fctTransformStep complex st m).2 = [] ∧
    (fctTransformStep complex st m).1 =
      { st with
          aggregatedFinal := st.aggregatedFinal ++ m
          aggregatedResponse := st.aggregatedResponse ++ m } ∧
    tokenPayloads (runCallbacksTransformer cb msgs).2.1 =
      (if cb.onToken then msgs.map msgContent else []) ∧
    textPayloads (runCallbacksTransformer cb msgs).2.1 =
      (if cb.onText then msgs.filterMap (fun x =>
        match x with
        | .plain s => some s
        | .structured _ => none) else []) := by
  refine ⟨?_, ?_, runCallbacks_tokens cb msgs, runCallbacks_texts cb msgs⟩
  · unfold fctTransformStep
    dsimp only
    simp [hin, hfc]
  · unfold fctTransformStep
    dsimp only
    simp [hin, hfc]

/-- C9: witness for the amended theorem at a concrete in-call state and
message list. -/
theorem c9_forwarding_witness :
    ({ isFirstChunk := false, aggregatedResponse := strL "x",
       aggregatedFinal := strL "x",
       isFunctionStreamingIn := true } : FCTState).isFunctionStreamingIn
      = true ∧
    ({ isFirstChunk := false, aggregatedResponse := strL "x",
       aggregatedFinal := strL "x",
       isFunctionStreamingIn := true } : FCTState).isFirstChunk = false ∧
    ((fctTransformStep true
        { isFirstChunk := false, aggregatedResponse := strL "x",
          aggregatedFinal := strL "x", isFunctionStreamingIn := true }
        (strL "y")).2 = [] ∧
     (fctTransformStep true
        { isFirstChunk := false, aggregatedResponse := strL "x",
          aggregatedFinal := strL "x", isFunctionStreamingIn := true }
        (strL "y")).1 =
      { isFirstChunk := false, aggregatedResponse := strL "x" ++ strL "y",
        aggregatedFinal := strL "x" ++ strL "y",
        isFunctionStreamingIn := true } ∧
     tokenPayloads (runCallbacksTransformer cbMain
       [fnCallMsg, .plain (strL "t")]).2.1 =
       (if cbMain.onToken then
         [fnCallMsg, ExtractedMsg.plain (strL "t")].map msgContent else []) ∧
     textPayloads (runCallbacksTransformer cbMain
       [fnCallMsg, .plain (strL "t")]).2.1 =
       (if cbMain.onText then
         [fnCallMsg, ExtractedMsg.plain (strL "t")].filterMap (fun x =>
           match x with
           | .plain s => some s
           | .structured _ => none) else [])) :=
  ⟨rfl, rfl,
    c9_forwarding_amended true
      { isFirstChunk := false, aggregatedResponse := strL "x",
        aggregatedFinal := strL "x", isFunctionStreamingIn := true }
      (strL "y") cbMain [fnCallMsg, .plain (strL "t")] rfl rfl⟩
